import Mathlib

/-
  Shallow embedding of the well-control and economic-shutdown decision engine
  of opm-simulators (WellInterfaceFluidSystem.cpp part of the repository).
  Doubles are modelled as rationals; external collaborators (rate converter,
  group-hierarchy evaluator, parallel reduction) are modelled as explicit
  function parameters.  The embedding is per-well: a WellInterface value holds
  the per-well fields of the C++ class, WellState holds the per-well slots of
  the simulator state, indexed by well index.
-/

set_option maxHeartbeats 1000000

namespace Opm

/-- Logical phases of BlackoilPhases: Aqua = water, Liquid = oil, Vapour = gas. -/
inductive BlackoilPhase
  | Aqua
  | Liquid
  | Vapour
deriving DecidableEq

/-- PhaseUsage: mapping from logical phase to active-phase slot (phase_pos),
with phase_used marking active phases, as consumed by the source. -/
structure PhaseUsage where
  phase_used : BlackoilPhase → Bool
  phase_pos : BlackoilPhase → Nat
  num_phases : Nat

/-- Well injection control modes (Well::InjectorCMode), the subset used here. -/
inductive InjectorCMode
  | RATE
  | RESV
  | BHP
  | THP
  | GRUP
deriving DecidableEq

/-- Well production control modes (Well::ProducerCMode), the subset used here. -/
inductive ProducerCMode
  | ORAT
  | WRAT
  | GRAT
  | LRAT
  | RESV
  | BHP
  | THP
  | GRUP
deriving DecidableEq

/-- Injector fluid types enumerated by the source's switch statements; other
values throw in the source and are outside the modelled domain. -/
inductive InjectorType
  | WATER
  | OIL
  | GAS
deriving DecidableEq

/-- Quantity-limit mode of WellEconProductionLimits (RATE or POTN). -/
inductive QuantityLimit
  | RATE
  | POTN
deriving DecidableEq

/-- Workover policy of WellEconProductionLimits; OTHER stands for the
kinds the source handles in its default branch (warning, no action). -/
inductive EconWorkover
  | NONE
  | CON
  | WELL
  | OTHER
deriving DecidableEq

/-- Closure reasons in WellTestConfig (only ECONOMIC and PHYSICAL are used here). -/
inductive WTReason
  | ECONOMIC
  | PHYSICAL
deriving DecidableEq

/-- Injection controls of a well (Well::injectionControls result): configured
control set, limits, and the injector fluid type.  The SummaryState argument
of the source accessor is folded into the stored values. -/
structure InjectionControls where
  hasControl : InjectorCMode → Bool
  bhp_limit : ℚ
  surface_rate : ℚ
  reservoir_rate : ℚ
  injector_type : InjectorType

/-- Production controls of a well (Well::productionControls result). -/
structure ProductionControls where
  hasControl : ProducerCMode → Bool
  bhp_limit : ℚ
  oil_rate : ℚ
  water_rate : ℚ
  gas_rate : ℚ
  liquid_rate : ℚ
  resv_rate : ℚ
  prediction_mode : Bool

/-- Economic production limits of a well (WellEconProductionLimits).  The
class itself lives outside the excerpted source; its fields are the flags
and limit values the source queries through its accessors. -/
structure WellEconProductionLimits where
  onMinOilRate : Bool
  onMinGasRate : Bool
  onMinLiquidRate : Bool
  onMinReservoirFluidRate : Bool
  minOilRate : ℚ
  minGasRate : ℚ
  minLiquidRate : ℚ
  onMaxWaterCut : Bool
  onMaxGasOilRatio : Bool
  onMaxWaterGasRatio : Bool
  onMaxGasLiquidRatio : Bool
  maxWaterCut : ℚ
  maxGasOilRatio : ℚ
  maxWaterGasRatio : ℚ
  quantityLimit : QuantityLimit
  endRun : Bool
  validFollowonWell : Bool
  workover : EconWorkover

/-- Modelled from the spec: onAnyRateLimit of WellEconProductionLimits (the
class is not part of the excerpted source); true when any minimum-rate
economic limit is configured. -/
def WellEconProductionLimits.onAnyRateLimit (e : WellEconProductionLimits) : Bool :=
  e.onMinOilRate || e.onMinGasRate || e.onMinLiquidRate || e.onMinReservoirFluidRate

/-- Modelled from the spec: onAnyRatioLimit of WellEconProductionLimits; true
when any maximum-ratio economic limit is configured. -/
def WellEconProductionLimits.onAnyRatioLimit (e : WellEconProductionLimits) : Bool :=
  e.onMaxWaterCut || e.onMaxGasOilRatio || e.onMaxWaterGasRatio || e.onMaxGasLiquidRatio

/-- Modelled from the spec: onAnyEffectiveLimit of WellEconProductionLimits;
the well has at least one effective economic limit configured. -/
def WellEconProductionLimits.onAnyEffectiveLimit (e : WellEconProductionLimits) : Bool :=
  e.onAnyRateLimit || e.onAnyRatioLimit

/-- One well connection as consumed by the CON workover branch: its open/shut
state and the completion number it belongs to. -/
structure Connection where
  state_open : Bool
  complnum : Int
deriving DecidableEq

/-- Static well description (the well_ecl_ member): identity, role,
controls, economic limits and connection list. -/
structure WellEcl where
  name : String
  isInjector : Bool
  isProducer : Bool
  injectionControls : InjectionControls
  productionControls : ProductionControls
  econLimits : WellEconProductionLimits
  connections : List Connection

/-- WellState: per-well slots of the simulator state.  Rows of wellRates and
wellReservoirRates hold the np phase entries of one well; perfPhaseRates and
wellPotentials are flat vectors as in the source. -/
structure WellState where
  bhp : List ℚ
  thp : List ℚ
  wellRates : List (List ℚ)
  wellReservoirRates : List (List ℚ)
  perfPhaseRates : List ℚ
  wellPotentials : List ℚ
  currentInjectionControl : List InjectorCMode
  currentProductionControl : List ProducerCMode
deriving DecidableEq

/-- Write the current injection control mode of one well into WellState. -/
def WellState.setInjControl (ws : WellState) (wi : Nat) (m : InjectorCMode) : WellState :=
  { ws with currentInjectionControl := ws.currentInjectionControl.set wi m }

/-- Write the current production control mode of one well into WellState. -/
def WellState.setProdControl (ws : WellState) (wi : Nat) (m : ProducerCMode) : WellState :=
  { ws with currentProductionControl := ws.currentProductionControl.set wi m }

/-- Per-well data of a WellInterfaceFluidSystem instance.  The rate converter
(calcReservoirVoidageRates with fixed region and pvt-region indices) is an
external collaborator modelled as a function field; completions_ maps each
completion number to the local indices of its connections.  The cross-partition
reduction of the source is the identity in this single-partition model. -/
structure WellInterface where
  well_ecl : WellEcl
  index_of_well : Nat
  number_of_phases : Nat
  first_perf : Nat
  completions : List (Int × List Nat)
  pu : PhaseUsage
  thpConstraint : ℚ
  wellIsStopped : Bool
  calcReservoirVoidageRates : List ℚ → List ℚ

/-- Sentinel completion id (std::numeric_limits of int max in the source). -/
def INVALIDCOMPLETION : Int := 2147483647

/-- Modelled from the spec: the shut-in ledger entry for a well in
WellTestState (the class lives in opm-common, outside the excerpted source). -/
structure WTWell where
  name : String
  reason : WTReason
  sim_time : ℚ
  closed : Bool
deriving DecidableEq

/-- Modelled from the spec: WellTestState, a mapping from well name to
closure entries and from (well name, completion id) to closure records;
entries are appended or mutated, never removed. -/
structure WellTestState where
  wells : List WTWell
  completions : List (String × Int × ℚ)
deriving DecidableEq

/-- Modelled from the spec: WellTestState::closeWell marks the (name, reason)
entry closed, appending it when absent. -/
def WellTestState.closeWell (wts : WellTestState) (n : String) (r : WTReason) (t : ℚ) :
    WellTestState :=
  if wts.wells.any (fun w => w.name = n ∧ w.reason = r) then
    { wts with wells := wts.wells.map (fun w =>
        if w.name = n ∧ w.reason = r then { w with closed := true } else w) }
  else
    { wts with wells := wts.wells ++ [⟨n, r, t, true⟩] }

/-- Modelled from the spec: WellTestState::hasCompletion, whether the
(well, completion) pair is recorded closed. -/
def WellTestState.hasCompletion (wts : WellTestState) (n : String) (c : Int) : Bool :=
  wts.completions.any (fun x => x.1 = n ∧ x.2.1 = c)

/-- Modelled from the spec: WellTestState::addClosedCompletion, recording a
completion closed (a no-op when already recorded). -/
def WellTestState.addClosedCompletion (wts : WellTestState) (n : String) (c : Int) (t : ℚ) :
    WellTestState :=
  if wts.hasCompletion n c then wts else { wts with completions := wts.completions ++ [(n, c, t)] }

/-- Modelled from the spec: whether the ledger records the well closed with
the given reason. -/
def WellTestState.hasWellClosed (wts : WellTestState) (n : String) (r : WTReason) : Bool :=
  wts.wells.any (fun w => w.name = n ∧ w.reason = r ∧ w.closed)

/-- RatioLimitCheckReport: transient result of the ratio-limit checks, with
the default-initialized field values of the source. -/
structure RatioLimitCheckReport where
  ratio_limit_violated : Bool
  worst_offending_completion : Int
  violation_extent : ℚ
deriving DecidableEq

/-- Default-initialized RatioLimitCheckReport as declared by the source. -/
def RatioLimitCheckReport.initial : RatioLimitCheckReport :=
  ⟨false, INVALIDCOMPLETION, 0⟩

/-- calculateReservoirRates: read the well's surface rates, convert them via
the rate converter, and write the result into the well's reservoir-voidage
slots of WellState. -/
def calculateReservoirRates (iface : WellInterface) (ws : WellState) : WellState :=
  let np := iface.number_of_phases
  let surface_rates := (List.range np).map
    (fun p => (ws.wellRates.getD iface.index_of_well []).getD p 0)
  let voidage_rates := iface.calcReservoirVoidageRates surface_rates
  let new_row := (List.range np).map (fun p => voidage_rates.getD p 0)
  { ws with wellReservoirRates := ws.wellReservoirRates.set iface.index_of_well new_row }

/-- Current surface rate of the injected phase, resolved from the injector
fluid type as in the source's switch statement. -/
def injCurrentRate (iface : WellInterface) (ws : WellState) : ℚ :=
  let row := ws.wellRates.getD iface.index_of_well []
  match iface.well_ecl.injectionControls.injector_type with
  | .WATER => row.getD (iface.pu.phase_pos .Aqua) 0
  | .OIL => row.getD (iface.pu.phase_pos .Liquid) 0
  | .GAS => row.getD (iface.pu.phase_pos .Vapour) 0

/-- Sum of the injector's reservoir-voidage rates over the active phases. -/
def injResvCurrentRate (iface : WellInterface) (ws : WellState) : ℚ :=
  let row := ws.wellReservoirRates.getD iface.index_of_well []
  (if iface.pu.phase_used .Aqua then row.getD (iface.pu.phase_pos .Aqua) 0 else 0)
  + (if iface.pu.phase_used .Liquid then row.getD (iface.pu.phase_pos .Liquid) 0 else 0)
  + (if iface.pu.phase_used .Vapour then row.getD (iface.pu.phase_pos .Vapour) 0 else 0)

/-- Negated sum of the producer's reservoir-voidage rates over the active
phases (production rates are stored negated). -/
def prodResvCurrentRate (iface : WellInterface) (ws : WellState) : ℚ :=
  let row := ws.wellReservoirRates.getD iface.index_of_well []
  (if iface.pu.phase_used .Aqua then -row.getD (iface.pu.phase_pos .Aqua) 0 else 0)
  + (if iface.pu.phase_used .Liquid then -row.getD (iface.pu.phase_pos .Liquid) 0 else 0)
  + (if iface.pu.phase_used .Vapour then -row.getD (iface.pu.phase_pos .Vapour) 0 else 0)

/-- Producer RESV limit under history mode: the target surface rates are
converted to an equivalent reservoir-voidage rate via the rate converter and
summed, as in the non-prediction branch of the source. -/
def prodResvTargetRate (iface : WellInterface) : ℚ :=
  let np := iface.number_of_phases
  let pu := iface.pu
  let c := iface.well_ecl.productionControls
  let s0 := List.replicate np (0 : ℚ)
  let s1 := if pu.phase_used .Aqua then s0.set (pu.phase_pos .Aqua) c.water_rate else s0
  let s2 := if pu.phase_used .Liquid then s1.set (pu.phase_pos .Liquid) c.oil_rate else s1
  let s3 := if pu.phase_used .Vapour then s2.set (pu.phase_pos .Vapour) c.gas_rate else s2
  let v := iface.calcReservoirVoidageRates s3
  ((List.range np).map (fun p => v.getD p 0)).sum

/-- Injector block of checkIndividualConstraints: the chain of control checks
in source order (BHP, RATE, RESV, THP), each skipped when it is the current
control; some ws' when a check fired (returning true in the source), with ws'
the state after that branch's writes.  The RESV and THP branches of the
source assign the new mode only to the local variable currentControl, so
they leave WellState unchanged. -/
def injectorFired (iface : WellInterface) (ws : WellState) : Option WellState :=
  let controls := iface.well_ecl.injectionControls
  let wi := iface.index_of_well
  let currentControl := ws.currentInjectionControl.getD wi .GRUP
  if controls.hasControl .BHP ∧ currentControl ≠ .BHP ∧
      controls.bhp_limit < ws.bhp.getD wi 0 then
    some (ws.setInjControl wi .BHP)
  else if controls.hasControl .RATE ∧ currentControl ≠ .RATE ∧
      controls.surface_rate < injCurrentRate iface ws then
    some (ws.setInjControl wi .RATE)
  else if controls.hasControl .RESV ∧ currentControl ≠ .RESV ∧
      controls.reservoir_rate < injResvCurrentRate iface ws then
    some ws
  else if controls.hasControl .THP ∧ currentControl ≠ .THP ∧
      iface.thpConstraint < ws.thp.getD wi 0 then
    some ws
  else
    none

/-- Producer block of checkIndividualConstraints: the chain of control checks
in source order (BHP, ORAT, WRAT, GRAT, LRAT, RESV, THP), each skipped when
it is the current control; some ws' when a check fired. -/
def producerFired (iface : WellInterface) (ws : WellState) : Option WellState :=
  let controls := iface.well_ecl.productionControls
  let pu := iface.pu
  let wi := iface.index_of_well
  let row := ws.wellRates.getD wi []
  let currentControl := ws.currentProductionControl.getD wi .GRUP
  if controls.hasControl .BHP ∧ currentControl ≠ .BHP ∧
      controls.bhp_limit > ws.bhp.getD wi 0 then
    some (ws.setProdControl wi .BHP)
  else if controls.hasControl .ORAT ∧ currentControl ≠ .ORAT ∧
      controls.oil_rate < -row.getD (pu.phase_pos .Liquid) 0 then
    some (ws.setProdControl wi .ORAT)
  else if controls.hasControl .WRAT ∧ currentControl ≠ .WRAT ∧
      controls.water_rate < -row.getD (pu.phase_pos .Aqua) 0 then
    some (ws.setProdControl wi .WRAT)
  else if controls.hasControl .GRAT ∧ currentControl ≠ .GRAT ∧
      controls.gas_rate < -row.getD (pu.phase_pos .Vapour) 0 then
    some (ws.setProdControl wi .GRAT)
  else if controls.hasControl .LRAT ∧ currentControl ≠ .LRAT ∧
      controls.liquid_rate <
        -row.getD (pu.phase_pos .Liquid) 0 - row.getD (pu.phase_pos .Aqua) 0 then
    some (ws.setProdControl wi .LRAT)
  else if controls.hasControl .RESV ∧ currentControl ≠ .RESV ∧
      ((controls.prediction_mode ∧ controls.resv_rate < prodResvCurrentRate iface ws) ∨
       (¬controls.prediction_mode ∧ prodResvTargetRate iface < prodResvCurrentRate iface ws)) then
    some (ws.setProdControl wi .RESV)
  else if controls.hasControl .THP ∧ currentControl ≠ .THP ∧
      iface.thpConstraint > ws.thp.getD wi 0 then
    some (ws.setProdControl wi .THP)
  else
    none

/-- checkIndividualConstraints: injector block then producer block, returning
true with the written state at the first violated control, false otherwise. -/
def checkIndividualConstraints (iface : WellInterface) (ws : WellState) : Bool × WellState :=
  match (if iface.well_ecl.isInjector then injectorFired iface ws else none) with
  | some ws' => (true, ws')
  | none =>
    match (if iface.well_ecl.isProducer then producerFired iface ws else none) with
    | some ws' => (true, ws')
    | none => (false, ws)

/-- Multiply every phase entry of the given well's surface-rate row by s,
as the rescale loop of checkGroupConstraints does. -/
def scaleWellRates (ws : WellState) (wi : Nat) (s : ℚ) : WellState :=
  { ws with wellRates := ws.wellRates.set wi ((ws.wellRates.getD wi []).map (· * s)) }

/-- checkGroupConstraints: when the current mode is not yet GRUP, ask the
external group-hierarchy evaluator (modelled as the oracle arguments standing
for checkGroupConstraintsInj and checkGroupConstraintsProd, which delegate to
WellGroupHelpers outside the excerpted source); on a violation set the mode
to GRUP and rescale every phase rate of the well by the returned factor. -/
def checkGroupConstraints (iface : WellInterface)
    (injOracle prodOracle : WellState → Bool × ℚ) (ws : WellState) : Bool × WellState :=
  let wi := iface.index_of_well
  if iface.well_ecl.isInjector ∧ ws.currentInjectionControl.getD wi .GRUP ≠ .GRUP then
    let gc := injOracle ws
    if gc.1 then
      (true, scaleWellRates (ws.setInjControl wi .GRUP) wi gc.2)
    else
      (false, ws)
  else if iface.well_ecl.isProducer ∧ ws.currentProductionControl.getD wi .GRUP ≠ .GRUP then
    let gc := prodOracle ws
    if gc.1 then
      (true, scaleWellRates (ws.setProdControl wi .GRUP) wi gc.2)
    else
      (false, ws)
  else
    (false, ws)

/-- checkConstraints: individual constraints first; group constraints only
when no individual constraint fired. -/
def checkConstraints (iface : WellInterface)
    (injOracle prodOracle : WellState → Bool × ℚ) (ws : WellState) : Bool × WellState :=
  let ind := checkIndividualConstraints iface ws
  if ind.1 then (true, ind.2)
  else checkGroupConstraints iface injOracle prodOracle ind.2

/-- checkRateEconLimits: minimum oil, gas and liquid rate checks in source
order over the given rate (or potential) vector, true at the first violated
minimum (absolute value of the signed rate below the configured minimum). -/
def checkRateEconLimits (pu : PhaseUsage) (e : WellEconProductionLimits)
    (rates : List ℚ) : Bool :=
  if e.onMinOilRate ∧ |rates.getD (pu.phase_pos .Liquid) 0| < e.minOilRate then
    true
  else if e.onMinGasRate ∧ |rates.getD (pu.phase_pos .Vapour) 0| < e.minGasRate then
    true
  else if e.onMinLiquidRate ∧
      |rates.getD (pu.phase_pos .Liquid) 0 + rates.getD (pu.phase_pos .Aqua) 0|
        < e.minLiquidRate then
    true
  else
    false

/-- Water-cut evaluator of checkMaxWaterCutLimit: water over oil plus water,
zero when the liquid rate is zero. -/
def waterCut (pu : PhaseUsage) (rates : List ℚ) : ℚ :=
  let oil_rate := rates.getD (pu.phase_pos .Liquid) 0
  let water_rate := rates.getD (pu.phase_pos .Aqua) 0
  let liquid_rate := oil_rate + water_rate
  if liquid_rate ≠ 0 then water_rate / liquid_rate else 0

/-- Gas-oil ratio evaluator of checkMaxGORLimit: gas over oil, with the big
sentinel value for zero oil and nonzero gas, and zero for zero over zero. -/
def gor (pu : PhaseUsage) (rates : List ℚ) : ℚ :=
  let oil_rate := rates.getD (pu.phase_pos .Liquid) 0
  let gas_rate := rates.getD (pu.phase_pos .Vapour) 0
  if oil_rate ≠ 0 then gas_rate / oil_rate
  else if gas_rate ≠ 0 then (10 : ℚ) ^ (100 : ℕ)
  else 0

/-- Water-gas ratio evaluator of checkMaxWGRLimit, symmetric to gor. -/
def wgr (pu : PhaseUsage) (rates : List ℚ) : ℚ :=
  let water_rate := rates.getD (pu.phase_pos .Aqua) 0
  let gas_rate := rates.getD (pu.phase_pos .Vapour) 0
  if gas_rate ≠ 0 then water_rate / gas_rate
  else if water_rate ≠ 0 then (10 : ℚ) ^ (100 : ℕ)
  else 0

/-- Per-completion phase rates: for each phase, the sum of the perforation
rates of the completion's connections, read from the flat perfPhaseRates
vector at offset first_perf as in the source (the cross-partition reduction
is the identity in this single-partition model). -/
def completionRates (iface : WellInterface) (ws : WellState) (conns : List Nat) : List ℚ :=
  (List.range iface.number_of_phases).map (fun p =>
    (conns.map (fun c =>
      ws.perfPhaseRates.getD ((iface.first_perf + c) * iface.number_of_phases + p) 0)).sum)

/-- One step of the worst-offending-completion scan: replace the candidate
only when the completion's ratio strictly exceeds the running maximum. -/
def scanStep (acc : Int × ℚ) (c : Int × ℚ) : Int × ℚ :=
  if c.2 > acc.2 then c else acc

/-- Ratios of all completions of the well, in iteration order. -/
def completionRatioList (iface : WellInterface) (ws : WellState)
    (ratioFunc : PhaseUsage → List ℚ → ℚ) : List (Int × ℚ) :=
  iface.completions.map (fun c => (c.1, ratioFunc iface.pu (completionRates iface ws c.2)))

/-- The worst-offending-completion scan of checkMaxRatioLimitCompletions:
fold over the completions starting from (INVALIDCOMPLETION, 0). -/
def worstCompletionScan (iface : WellInterface) (ws : WellState)
    (ratioFunc : PhaseUsage → List ℚ → ℚ) : Int × ℚ :=
  (completionRatioList iface ws ratioFunc).foldl scanStep (INVALIDCOMPLETION, 0)

/-- checkMaxRatioLimitCompletions: find the worst-offending completion, form
violation_extent as its ratio over the limit, and overwrite the report only
when this extent strictly exceeds the recorded one. -/
def checkMaxRatioLimitCompletions (iface : WellInterface) (ws : WellState)
    (max_ratio_limit : ℚ) (ratioFunc : PhaseUsage → List ℚ → ℚ)
    (report : RatioLimitCheckReport) : RatioLimitCheckReport :=
  let scan := worstCompletionScan iface ws ratioFunc
  let violation_extent := scan.2 / max_ratio_limit
  if violation_extent > report.violation_extent then
    { report with worst_offending_completion := scan.1, violation_extent := violation_extent }
  else
    report

/-- checkMaxRatioLimitWell: the well-level ratio over the well's surface
rates exceeds the limit. -/
def checkMaxRatioLimitWell (iface : WellInterface) (ws : WellState)
    (max_ratio_limit : ℚ) (ratioFunc : PhaseUsage → List ℚ → ℚ) : Bool :=
  let np := iface.number_of_phases
  let well_rates := (List.range np).map
    (fun p => (ws.wellRates.getD iface.index_of_well []).getD p 0)
  ratioFunc iface.pu well_rates > max_ratio_limit

/-- checkMaxWaterCutLimit: on a well-level violation mark the report violated
and run the completion scan with the water-cut evaluator. -/
def checkMaxWaterCutLimit (iface : WellInterface) (e : WellEconProductionLimits)
    (ws : WellState) (report : RatioLimitCheckReport) : RatioLimitCheckReport :=
  if checkMaxRatioLimitWell iface ws e.maxWaterCut waterCut then
    checkMaxRatioLimitCompletions iface ws e.maxWaterCut waterCut
      { report with ratio_limit_violated := true }
  else
    report

/-- checkMaxGORLimit: on a well-level violation mark the report violated and
run the completion scan with the gas-oil ratio evaluator. -/
def checkMaxGORLimit (iface : WellInterface) (e : WellEconProductionLimits)
    (ws : WellState) (report : RatioLimitCheckReport) : RatioLimitCheckReport :=
  if checkMaxRatioLimitWell iface ws e.maxGasOilRatio gor then
    checkMaxRatioLimitCompletions iface ws e.maxGasOilRatio gor
      { report with ratio_limit_violated := true }
  else
    report

/-- checkMaxWGRLimit: on a well-level violation mark the report violated and
run the completion scan with the water-gas ratio evaluator. -/
def checkMaxWGRLimit (iface : WellInterface) (e : WellEconProductionLimits)
    (ws : WellState) (report : RatioLimitCheckReport) : RatioLimitCheckReport :=
  if checkMaxRatioLimitWell iface ws e.maxWaterGasRatio wgr then
    checkMaxRatioLimitCompletions iface ws e.maxWaterGasRatio wgr
      { report with ratio_limit_violated := true }
  else
    report

/-- checkRatioEconLimits: the configured ratio checks in source order
(water-cut, then gas-oil ratio, then water-gas ratio), threading the report. -/
def checkRatioEconLimits (iface : WellInterface) (e : WellEconProductionLimits)
    (ws : WellState) (report : RatioLimitCheckReport) : RatioLimitCheckReport :=
  let r1 := if e.onMaxWaterCut then checkMaxWaterCutLimit iface e ws report else report
  let r2 := if e.onMaxGasOilRatio then checkMaxGORLimit iface e ws r1 else r1
  if e.onMaxWaterGasRatio then checkMaxWGRLimit iface e ws r2 else r2

/-- Rate-limit test of updateWellTestStateEconomic: when any rate limit is
configured, check the minima against the well potentials (POTN mode) or the
instantaneous well rates, as selected by the quantity-limit mode. -/
def rateLimitViolated (iface : WellInterface) (e : WellEconProductionLimits)
    (ws : WellState) : Bool :=
  if e.onAnyRateLimit then
    if e.quantityLimit = .POTN then
      checkRateEconLimits iface.pu e
        (ws.wellPotentials.drop (iface.index_of_well * iface.number_of_phases))
    else
      checkRateEconLimits iface.pu e (ws.wellRates.getD iface.index_of_well [])
  else
    false

/-- The all-completions-closed test of the CON workover branch: every
connection whose state is OPEN belongs to a completion recorded closed. -/
def allOpenConnectionsClosed (iface : WellInterface) (wts : WellTestState) : Bool :=
  iface.well_ecl.connections.all
    (fun conn => !conn.state_open || wts.hasCompletion iface.well_ecl.name conn.complnum)

/-- updateWellTestStateEconomic: early-out when the well is stopped or no
economic limit is effective; close the well on a violated rate limit without
evaluating ratio limits; otherwise evaluate ratio limits and apply the
configured workover policy. -/
def updateWellTestStateEconomic (iface : WellInterface) (ws : WellState)
    (simulation_time : ℚ) (wts : WellTestState) : WellTestState :=
  if iface.wellIsStopped then wts
  else
    let e := iface.well_ecl.econLimits
    let n := iface.well_ecl.name
    if ¬e.onAnyEffectiveLimit then wts
    else if rateLimitViolated iface e ws then
      wts.closeWell n .ECONOMIC simulation_time
    else if ¬e.onAnyRatioLimit then wts
    else
      let report := checkRatioEconLimits iface e ws RatioLimitCheckReport.initial
      if report.ratio_limit_violated then
        match e.workover with
        | .CON =>
          let wts1 := wts.addClosedCompletion n report.worst_offending_completion simulation_time
          if allOpenConnectionsClosed iface wts1 then
            wts1.closeWell n .ECONOMIC simulation_time
          else
            wts1
        | .WELL => wts.closeWell n .ECONOMIC simulation_time
        | _ => wts
      else
        wts

/-- The fixed priority order of injector controls checked by the source. -/
def injPriorityOrder : List InjectorCMode := [.BHP, .RATE, .RESV, .THP]

/-- The fixed priority order of producer controls checked by the source. -/
def prodPriorityOrder : List ProducerCMode :=
  [.BHP, .ORAT, .WRAT, .GRAT, .LRAT, .RESV, .THP]

/-- Whether one injector control would fire: it is configured, not the current
control, and its limit is violated — the branch conditions of the source. -/
def injViolated (iface : WellInterface) (ws : WellState) : InjectorCMode → Bool
  | .BHP => decide (iface.well_ecl.injectionControls.hasControl .BHP ∧
      ws.currentInjectionControl.getD iface.index_of_well .GRUP ≠ .BHP ∧
      iface.well_ecl.injectionControls.bhp_limit < ws.bhp.getD iface.index_of_well 0)
  | .RATE => decide (iface.well_ecl.injectionControls.hasControl .RATE ∧
      ws.currentInjectionControl.getD iface.index_of_well .GRUP ≠ .RATE ∧
      iface.well_ecl.injectionControls.surface_rate < injCurrentRate iface ws)
  | .RESV => decide (iface.well_ecl.injectionControls.hasControl .RESV ∧
      ws.currentInjectionControl.getD iface.index_of_well .GRUP ≠ .RESV ∧
      iface.well_ecl.injectionControls.reservoir_rate < injResvCurrentRate iface ws)
  | .THP => decide (iface.well_ecl.injectionControls.hasControl .THP ∧
      ws.currentInjectionControl.getD iface.index_of_well .GRUP ≠ .THP ∧
      iface.thpConstraint < ws.thp.getD iface.index_of_well 0)
  | .GRUP => false

/-- Whether one producer control would fire, mirroring the branch conditions
of the source (including both RESV sub-branches). -/
def prodViolated (iface : WellInterface) (ws : WellState) : ProducerCMode → Bool
  | .BHP => decide (iface.well_ecl.productionControls.hasControl .BHP ∧
      ws.currentProductionControl.getD iface.index_of_well .GRUP ≠ .BHP ∧
      iface.well_ecl.productionControls.bhp_limit > ws.bhp.getD iface.index_of_well 0)
  | .ORAT => decide (iface.well_ecl.productionControls.hasControl .ORAT ∧
      ws.currentProductionControl.getD iface.index_of_well .GRUP ≠ .ORAT ∧
      iface.well_ecl.productionControls.oil_rate <
        -(ws.wellRates.getD iface.index_of_well []).getD (iface.pu.phase_pos .Liquid) 0)
  | .WRAT => decide (iface.well_ecl.productionControls.hasControl .WRAT ∧
      ws.currentProductionControl.getD iface.index_of_well .GRUP ≠ .WRAT ∧
      iface.well_ecl.productionControls.water_rate <
        -(ws.wellRates.getD iface.index_of_well []).getD (iface.pu.phase_pos .Aqua) 0)
  | .GRAT => decide (iface.well_ecl.productionControls.hasControl .GRAT ∧
      ws.currentProductionControl.getD iface.index_of_well .GRUP ≠ .GRAT ∧
      iface.well_ecl.productionControls.gas_rate <
        -(ws.wellRates.getD iface.index_of_well []).getD (iface.pu.phase_pos .Vapour) 0)
  | .LRAT => decide (iface.well_ecl.productionControls.hasControl .LRAT ∧
      ws.currentProductionControl.getD iface.index_of_well .GRUP ≠ .LRAT ∧
      iface.well_ecl.productionControls.liquid_rate <
        -(ws.wellRates.getD iface.index_of_well []).getD (iface.pu.phase_pos .Liquid) 0
        - (ws.wellRates.getD iface.index_of_well []).getD (iface.pu.phase_pos .Aqua) 0)
  | .RESV => decide (iface.well_ecl.productionControls.hasControl .RESV ∧
      ws.currentProductionControl.getD iface.index_of_well .GRUP ≠ .RESV ∧
      ((iface.well_ecl.productionControls.prediction_mode ∧
          iface.well_ecl.productionControls.resv_rate < prodResvCurrentRate iface ws) ∨
       (¬iface.well_ecl.productionControls.prediction_mode ∧
          prodResvTargetRate iface < prodResvCurrentRate iface ws)))
  | .THP => decide (iface.well_ecl.productionControls.hasControl .THP ∧
      ws.currentProductionControl.getD iface.index_of_well .GRUP ≠ .THP ∧
      iface.thpConstraint > ws.thp.getD iface.index_of_well 0)
  | .GRUP => false

/-- The WellState write performed by each firing injector branch of the
source: BHP and RATE record the new mode, while the RESV and THP branches
assign only a local variable and leave WellState unchanged. -/
def injWrite (iface : WellInterface) (ws : WellState) : InjectorCMode → WellState
  | .BHP => ws.setInjControl iface.index_of_well .BHP
  | .RATE => ws.setInjControl iface.index_of_well .RATE
  | _ => ws

/-- The WellState write performed by each firing producer branch of the
source: every branch records the new mode. -/
def prodWrite (iface : WellInterface) (ws : WellState) (m : ProducerCMode) : WellState :=
  ws.setProdControl iface.index_of_well m

section Fixtures

/-- Three-phase usage with the standard slot order water, oil, gas. -/
def pu3 : PhaseUsage :=
  ⟨fun _ => true, fun p => match p with | .Aqua => 0 | .Liquid => 1 | .Vapour => 2, 3⟩

/-- Two-phase usage (oil and water active) for the oil-water configuration. -/
def pu2 : PhaseUsage :=
  ⟨fun p => decide (p ≠ .Vapour),
   fun p => match p with | .Aqua => 0 | .Liquid => 1 | .Vapour => 2, 2⟩

/-- Single-phase usage used by the frame fixtures. -/
def pu1 : PhaseUsage := ⟨fun p => decide (p = .Aqua), fun _ => 0, 1⟩

/-- Injection controls with no configured control. -/
def noInjControls : InjectionControls := ⟨fun _ => false, 0, 0, 0, .WATER⟩

/-- Production controls with no configured control. -/
def noProdControls : ProductionControls := ⟨fun _ => false, 0, 0, 0, 0, 0, 0, true⟩

/-- Economic limits with nothing configured. -/
def noEconLimits : WellEconProductionLimits :=
  ⟨false, false, false, false, 0, 0, 0, false, false, false, false, 0, 0, 0,
   .RATE, false, false, .NONE⟩

/-- Group oracle that never reports a violation. -/
def falseOracle : WellState → Bool × ℚ := fun _ => (false, 1)

/-- Group oracle reporting a violation with scale factor seven tenths. -/
def prodOracle7 : WellState → Bool × ℚ := fun _ => (true, 7/10)

/-- Injector with only a RESV control, whose limit 1 is below the current
voidage sum 2 of ws1, so the RESV branch fires. -/
def injControls1 : InjectionControls := ⟨fun m => decide (m = .RESV), 0, 0, 1, .WATER⟩

/-- Injector well for the RESV fixture. -/
def wellEcl1 : WellEcl := ⟨"W1", true, false, injControls1, noProdControls, noEconLimits, []⟩

/-- Interface of the RESV-injector fixture. -/
def iface1 : WellInterface := ⟨wellEcl1, 0, 3, 0, [], pu3, 0, false, fun l => l⟩

/-- State of the RESV-injector fixture: current injection control RATE,
voidage rates summing to 2. -/
def ws1 : WellState := ⟨[0], [0], [[0, 0, 0]], [[2, 0, 0]], [], [], [.RATE], [.GRUP]⟩

/-- Injector with BHP and RATE controls, both violated in ws6. -/
def injControls6 : InjectionControls :=
  ⟨fun m => decide (m = .BHP ∨ m = .RATE), 5, 1, 0, .WATER⟩

/-- Injector well for the priority fixture. -/
def wellEcl6 : WellEcl := ⟨"W6", true, false, injControls6, noProdControls, noEconLimits, []⟩

/-- Interface of the priority fixture. -/
def iface6 : WellInterface := ⟨wellEcl6, 0, 3, 0, [], pu3, 0, false, fun l => l⟩

/-- State of the priority fixture: BHP 10 above the limit 5 and water rate 2
above the surface-rate limit 1, current control GRUP. -/
def ws6 : WellState := ⟨[10], [0], [[2, 0, 0]], [[0, 0, 0]], [], [], [.GRUP], [.GRUP]⟩

/-- Producer well with no individual controls, for the group fixture. -/
def wellEcl2 : WellEcl := ⟨"W2", false, true, noInjControls, noProdControls, noEconLimits, []⟩

/-- Interface of the group fixture. -/
def iface2 : WellInterface := ⟨wellEcl2, 0, 3, 0, [], pu3, 0, false, fun l => l⟩

/-- State of the group fixture: production control ORAT, rates to be scaled. -/
def ws2 : WellState := ⟨[0], [0], [[-1, -2, -3]], [[0, 0, 0]], [], [], [.GRUP], [.ORAT]⟩

/-- Economic limits with a max water cut of one half under CON workover. -/
def econ3 : WellEconProductionLimits :=
  ⟨false, false, false, false, 0, 0, 0, true, false, false, false, 1/2, 0, 0,
   .RATE, false, false, .CON⟩

/-- Producer well with one open connection in completion 1. -/
def wellEcl3 : WellEcl := ⟨"W3", false, true, noInjControls, noProdControls, econ3, [⟨true, 1⟩]⟩

/-- Interface of the CON-workover fixture. -/
def iface3 : WellInterface := ⟨wellEcl3, 0, 2, 0, [(1, [0])], pu2, 0, false, fun l => l⟩

/-- State of the CON-workover fixture: water cut nine tenths at the well and
at its single completion. -/
def ws3 : WellState :=
  ⟨[0], [0], [[-9/10, -1/10]], [[0, 0]], [-9/10, -1/10], [], [.GRUP], [.ORAT]⟩

/-- Empty shut-in ledger. -/
def wts0 : WellTestState := ⟨[], []⟩

/-- Economic limits violating both a minimum oil rate and a max water cut. -/
def econ4 : WellEconProductionLimits :=
  ⟨true, false, false, false, 1, 0, 0, true, false, false, false, 1/2, 0, 0,
   .RATE, false, false, .CON⟩

/-- Producer well for the rate-limit short-circuit fixture. -/
def wellEcl4 : WellEcl := ⟨"W4", false, true, noInjControls, noProdControls, econ4, [⟨true, 1⟩]⟩

/-- Interface of the short-circuit fixture. -/
def iface4 : WellInterface := ⟨wellEcl4, 0, 2, 0, [(1, [0])], pu2, 0, false, fun l => l⟩

/-- State of the short-circuit fixture: oil rate magnitude one tenth below
the minimum 1, water cut nine tenths above the limit one half. -/
def ws4 : WellState :=
  ⟨[0], [0], [[-9/10, -1/10]], [[0, 0]], [-9/10, -1/10], [], [.GRUP], [.ORAT]⟩

/-- Producer well for the worst-offender fixture. -/
def wellEcl5 : WellEcl := ⟨"W5", false, true, noInjControls, noProdControls, noEconLimits, []⟩

/-- Interface of the worst-offender fixture: three single-connection
completions numbered 1, 2, 3. -/
def iface5 : WellInterface :=
  ⟨wellEcl5, 0, 2, 0, [(1, [0]), (2, [1]), (3, [2])], pu2, 0, false, fun l => l⟩

/-- State of the worst-offender fixture: completion water cuts three tenths,
nine tenths and six tenths. -/
def ws5 : WellState :=
  ⟨[0], [0], [[-18/10, -12/10]], [[0, 0]],
   [-3/10, -7/10, -9/10, -1/10, -6/10, -4/10], [], [.GRUP], [.ORAT]⟩

/-- Interface of a stopped well, for the no-op fixture. -/
def iface7 : WellInterface := ⟨wellEcl1, 0, 3, 0, [], pu3, 0, true, fun l => l⟩

/-- Producer well for the frame fixture. -/
def wellEcl9 : WellEcl := ⟨"W9", false, true, noInjControls, noProdControls, noEconLimits, []⟩

/-- Interface of the frame fixture: one phase, identity rate converter. -/
def iface9 : WellInterface := ⟨wellEcl9, 0, 1, 0, [], pu1, 0, false, fun l => l⟩

/-- State of the frame fixture: surface rate 1, voidage slot 0. -/
def ws9 : WellState := ⟨[0], [0], [[1]], [[0]], [], [], [.GRUP], [.ORAT]⟩

end Fixtures

section ScanLemmas

/-- The second component of the worst-offender fold is the maximum of the
start value and the scanned ratios. -/
theorem foldl_scanStep_snd (l : List (Int × ℚ)) (acc : Int × ℚ) :
    (l.foldl scanStep acc).2 = l.foldl (fun m c => max m c.2) acc.2 := by
  induction l generalizing acc with
  | nil => rfl
  | cons c l ih =>
    simp only [List.foldl_cons, ih]
    congr 1
    unfold scanStep
    split_ifs with h
    · exact (max_eq_right (le_of_lt h)).symm
    · exact (max_eq_left (le_of_not_lt h)).symm

/-- The start value is a lower bound of the running-maximum fold. -/
theorem le_foldl_max (l : List (Int × ℚ)) (d : ℚ) :
    d ≤ l.foldl (fun m c => max m c.2) d := by
  induction l generalizing d with
  | nil => exact le_refl d
  | cons c l ih => exact le_trans (le_max_left d c.2) (ih (max d c.2))

/-- Every scanned ratio is bounded by the running-maximum fold. -/
theorem elem_le_foldl_max (l : List (Int × ℚ)) (c : Int × ℚ) :
    c ∈ l → ∀ d : ℚ, c.2 ≤ l.foldl (fun m x => max m x.2) d := by
  induction l with
  | nil => intro hc; cases hc
  | cons a l ih =>
    intro hc d
    rcases List.mem_cons.mp hc with h | h
    · subst h
      exact le_trans (le_max_right d c.2) (le_foldl_max l (max d c.2))
    · exact ih h (max d a.2)

/-- The fold does not move when no scanned ratio strictly exceeds the
accumulator. -/
theorem foldl_scanStep_no_fire (l : List (Int × ℚ)) :
    ∀ acc : Int × ℚ, (∀ c ∈ l, c.2 ≤ acc.2) → l.foldl scanStep acc = acc := by
  induction l with
  | nil => intro acc _; rfl
  | cons c l ih =>
    intro acc h
    have hstep : scanStep acc c = acc := by
      unfold scanStep
      rw [if_neg (not_lt.mpr (h c (by simp)))]
    rw [List.foldl_cons, hstep]
    exact ih acc (fun d hd => h d (by simp [hd]))

/-- The accumulator survives whole when the fold's maximum does not
increase. -/
theorem foldl_scanStep_id_of_eq (l : List (Int × ℚ)) :
    ∀ acc : Int × ℚ, (l.foldl scanStep acc).2 = acc.2 → l.foldl scanStep acc = acc := by
  induction l with
  | nil => intro acc _; rfl
  | cons c l ih =>
    intro acc h
    rw [List.foldl_cons] at h ⊢
    by_cases hc : c.2 > acc.2
    · exfalso
      have h1 : (scanStep acc c).2 = c.2 := by simp [scanStep, hc]
      have hmono : (scanStep acc c).2 ≤ (l.foldl scanStep (scanStep acc c)).2 := by
        rw [foldl_scanStep_snd]
        exact le_foldl_max l (scanStep acc c).2
      rw [h, h1] at hmono
      exact absurd (lt_of_lt_of_le hc hmono) (lt_irrefl _)
    · have hstep : scanStep acc c = acc := by simp [scanStep, hc]
      rw [hstep] at h ⊢
      exact ih acc h

/-- When the fold's maximum strictly increases, the result is one of the
scanned entries (so the selected id attains the final maximum). -/
theorem foldl_scanStep_attains (l : List (Int × ℚ)) :
    ∀ acc : Int × ℚ, acc.2 < (l.foldl scanStep acc).2 →
      ∃ c ∈ l, l.foldl scanStep acc = c := by
  induction l with
  | nil => intro acc h; exact absurd h (lt_irrefl _)
  | cons c l ih =>
    intro acc h
    rw [List.foldl_cons] at h ⊢
    by_cases h2 : (scanStep acc c).2 < (l.foldl scanStep (scanStep acc c)).2
    · obtain ⟨d, hd, he⟩ := ih (scanStep acc c) h2
      exact ⟨d, List.mem_cons_of_mem c hd, he⟩
    · have hmono : (scanStep acc c).2 ≤ (l.foldl scanStep (scanStep acc c)).2 := by
        rw [foldl_scanStep_snd]
        exact le_foldl_max l (scanStep acc c).2
      have heq : (l.foldl scanStep (scanStep acc c)).2 = (scanStep acc c).2 :=
        le_antisymm (le_of_not_lt h2) hmono
      have hid := foldl_scanStep_id_of_eq l (scanStep acc c) heq
      by_cases hc : c.2 > acc.2
      · refine ⟨c, by simp, ?_⟩
        rw [hid]
        simp [scanStep, hc]
      · exfalso
        have hstep : scanStep acc c = acc := by simp [scanStep, hc]
        rw [hid, hstep] at h
        exact lt_irrefl _ h

end ScanLemmas

section StateLemmas

/-- Pointwise-identity maps leave a list unchanged. -/
theorem list_map_eq_self {α : Type} (l : List α) (f : α → α) (h : ∀ x ∈ l, f x = x) :
    l.map f = l := by
  induction l with
  | nil => rfl
  | cons a l ih =>
    rw [List.map_cons, h a (by simp), ih (fun x hx => h x (by simp [hx]))]

/-- A state produced by a firing injector branch is the input state with at
most the injection control mode rewritten. -/
theorem injectorFired_cases (iface : WellInterface) (ws w : WellState)
    (h : injectorFired iface ws = some w) :
    w = ws ∨ ∃ m, w = ws.setInjControl iface.index_of_well m := by
  unfold injectorFired at h
  dsimp only at h
  split_ifs at h
  · exact Or.inr ⟨.BHP, (Option.some.inj h).symm⟩
  · exact Or.inr ⟨.RATE, (Option.some.inj h).symm⟩
  · exact Or.inl (Option.some.inj h).symm
  · exact Or.inl (Option.some.inj h).symm

/-- A state produced by a firing producer branch is the input state with at
most the production control mode rewritten. -/
theorem producerFired_cases (iface : WellInterface) (ws w : WellState)
    (h : producerFired iface ws = some w) :
    w = ws ∨ ∃ m, w = ws.setProdControl iface.index_of_well m := by
  unfold producerFired at h
  dsimp only at h
  split_ifs at h
  · exact Or.inr ⟨.BHP, (Option.some.inj h).symm⟩
  · exact Or.inr ⟨.ORAT, (Option.some.inj h).symm⟩
  · exact Or.inr ⟨.WRAT, (Option.some.inj h).symm⟩
  · exact Or.inr ⟨.GRAT, (Option.some.inj h).symm⟩
  · exact Or.inr ⟨.LRAT, (Option.some.inj h).symm⟩
  · exact Or.inr ⟨.RESV, (Option.some.inj h).symm⟩
  · exact Or.inr ⟨.THP, (Option.some.inj h).symm⟩

/-- checkIndividualConstraints rewrites at most the control-mode fields. -/
theorem checkIndividual_cases (iface : WellInterface) (ws : WellState) :
    (checkIndividualConstraints iface ws).2 = ws ∨
    (∃ m, (checkIndividualConstraints iface ws).2 = ws.setInjControl iface.index_of_well m) ∨
    (∃ m, (checkIndividualConstraints iface ws).2 = ws.setProdControl iface.index_of_well m) := by
  unfold checkIndividualConstraints
  cases hI : (if iface.well_ecl.isInjector = true then injectorFired iface ws else none) with
  | some w =>
    have hIF : injectorFired iface ws = some w := by
      by_cases hb : iface.well_ecl.isInjector = true
      · rw [if_pos hb] at hI; exact hI
      · rw [if_neg hb] at hI; cases hI
    rcases injectorFired_cases iface ws w hIF with h | ⟨m, h⟩
    · exact Or.inl h
    · exact Or.inr (Or.inl ⟨m, h⟩)
  | none =>
    cases hP : (if iface.well_ecl.isProducer = true then producerFired iface ws else none) with
    | some w =>
      have hPF : producerFired iface ws = some w := by
        by_cases hb : iface.well_ecl.isProducer = true
        · rw [if_pos hb] at hP; exact hP
        · rw [if_neg hb] at hP; cases hP
      rcases producerFired_cases iface ws w hPF with h | ⟨m, h⟩
      · exact Or.inl h
      · exact Or.inr (Or.inr ⟨m, h⟩)
    | none => exact Or.inl rfl

/-- checkIndividualConstraints either fires (returning true) or returns the
pair (false, ws) whole. -/
theorem checkIndividual_spec (iface : WellInterface) (ws : WellState) :
    checkIndividualConstraints iface ws = (false, ws) ∨
    (checkIndividualConstraints iface ws).1 = true := by
  unfold checkIndividualConstraints
  cases (if iface.well_ecl.isInjector = true then injectorFired iface ws else none) with
  | some w => exact Or.inr rfl
  | none =>
    cases (if iface.well_ecl.isProducer = true then producerFired iface ws else none) with
    | some w => exact Or.inr rfl
    | none => exact Or.inl rfl

/-- checkIndividualConstraints leaves the state untouched when it returns
false. -/
theorem checkIndividual_false_eq (iface : WellInterface) (ws : WellState)
    (h : (checkIndividualConstraints iface ws).1 = false) :
    (checkIndividualConstraints iface ws).2 = ws := by
  rcases checkIndividual_spec iface ws with hs | hs
  · rw [hs]
  · rw [hs] at h
    cases h

end StateLemmas

section LedgerLemmas

/-- closeWell does not touch the completion records. -/
theorem closeWell_completions (wts : WellTestState) (n : String) (r : WTReason) (t : ℚ) :
    (wts.closeWell n r t).completions = wts.completions := by
  unfold WellTestState.closeWell
  split_ifs <;> rfl

/-- addClosedCompletion does not touch the well records. -/
theorem addClosedCompletion_wells (wts : WellTestState) (n : String) (c : Int) (t : ℚ) :
    (wts.addClosedCompletion n c t).wells = wts.wells := by
  unfold WellTestState.addClosedCompletion
  split_ifs <;> rfl

/-- After closeWell the ledger records the well closed with that reason. -/
theorem hasWellClosed_closeWell_self (wts : WellTestState) (n : String) (r : WTReason) (t : ℚ) :
    (wts.closeWell n r t).hasWellClosed n r = true := by
  unfold WellTestState.closeWell WellTestState.hasWellClosed
  split_ifs with h
  · simp only [List.any_eq_true, decide_eq_true_eq] at h ⊢
    obtain ⟨w, hw, hp⟩ := h
    exact ⟨{ w with closed := true }, List.mem_map.mpr ⟨w, hw, by simp [hp.1, hp.2]⟩,
      by simp [hp.1, hp.2]⟩
  · simp only [List.any_eq_true, decide_eq_true_eq]
    exact ⟨⟨n, r, t, true⟩, by simp, by simp⟩

/-- Every ledger entry matching the closed (name, reason) pair is closed
after closeWell. -/
theorem closeWell_entries (wts : WellTestState) (n : String) (r : WTReason) (t : ℚ) :
    ∀ w ∈ (wts.closeWell n r t).wells, w.name = n → w.reason = r → w.closed = true := by
  unfold WellTestState.closeWell
  split_ifs with h
  · intro w hw hn hr
    simp only [List.mem_map] at hw
    obtain ⟨w0, _, hw0⟩ := hw
    by_cases hp : w0.name = n ∧ w0.reason = r
    · rw [if_pos hp] at hw0
      rw [← hw0]
    · rw [if_neg hp] at hw0
      subst hw0
      exact absurd ⟨hn, hr⟩ hp
  · intro w hw hn hr
    rcases List.mem_append.mp hw with hmem | hmem
    · exfalso
      have hforall : ∀ x ∈ wts.wells, ¬(x.name = n ∧ x.reason = r) := by
        intro x hx hcon
        exact h (List.any_eq_true.mpr ⟨x, hx, decide_eq_true hcon⟩)
      exact hforall w hmem ⟨hn, hr⟩
    · simp only [List.mem_singleton] at hmem
      simp [hmem]

/-- Structure eta for an already-closed ledger entry. -/
theorem wtwell_closed_eta (w : WTWell) (h : w.closed = true) :
    ({ w with closed := true } : WTWell) = w := by
  cases w
  simp_all

/-- Closing a well twice with the same reason equals closing it once. -/
theorem closeWell_idem (wts : WellTestState) (n : String) (r : WTReason) (t t' : ℚ) :
    ((wts.closeWell n r t).closeWell n r t') = wts.closeWell n r t := by
  have hany : ((wts.closeWell n r t).wells.any (fun w => w.name = n ∧ w.reason = r)) = true := by
    have h1 := hasWellClosed_closeWell_self wts n r t
    unfold WellTestState.hasWellClosed at h1
    simp only [List.any_eq_true, decide_eq_true_eq] at h1 ⊢
    obtain ⟨w, hw, hp⟩ := h1
    exact ⟨w, hw, hp.1, hp.2.1⟩
  have hmap : ((wts.closeWell n r t).wells.map (fun w : WTWell =>
      if w.name = n ∧ w.reason = r then { w with closed := true } else w))
      = (wts.closeWell n r t).wells := by
    apply list_map_eq_self
    intro w hw
    by_cases hp : w.name = n ∧ w.reason = r
    · rw [if_pos hp]
      exact wtwell_closed_eta w (closeWell_entries wts n r t w hw hp.1 hp.2)
    · rw [if_neg hp]
  generalize hX : wts.closeWell n r t = X at hany hmap ⊢
  unfold WellTestState.closeWell
  rw [if_pos hany, hmap]

/-- After addClosedCompletion the pair is recorded closed. -/
theorem hasCompletion_addClosedCompletion_self (wts : WellTestState) (n : String)
    (c : Int) (t : ℚ) : (wts.addClosedCompletion n c t).hasCompletion n c = true := by
  unfold WellTestState.addClosedCompletion
  split_ifs with h
  · exact h
  · unfold WellTestState.hasCompletion
    rw [List.any_eq_true]
    exact ⟨(n, c, t), by simp, by simp⟩

/-- addClosedCompletion is a no-op on an already-recorded pair. -/
theorem addClosedCompletion_of_has (wts : WellTestState) (n : String) (c : Int) (t : ℚ)
    (h : wts.hasCompletion n c = true) : wts.addClosedCompletion n c t = wts := by
  unfold WellTestState.addClosedCompletion
  rw [if_pos h]

/-- hasCompletion only reads the completion records. -/
theorem hasCompletion_congr (wts1 wts2 : WellTestState) (n : String) (c : Int)
    (h : wts1.completions = wts2.completions) :
    wts1.hasCompletion n c = wts2.hasCompletion n c := by
  unfold WellTestState.hasCompletion
  rw [h]

/-- The all-open-connections-closed test only reads the completion records. -/
theorem allOpen_congr (iface : WellInterface) (wts1 wts2 : WellTestState)
    (h : wts1.completions = wts2.completions) :
    allOpenConnectionsClosed iface wts1 = allOpenConnectionsClosed iface wts2 := by
  unfold allOpenConnectionsClosed
  have : ∀ conn : Connection,
      wts1.hasCompletion iface.well_ecl.name conn.complnum
        = wts2.hasCompletion iface.well_ecl.name conn.complnum :=
    fun conn => hasCompletion_congr wts1 wts2 _ _ h
  simp only [this]

end LedgerLemmas

section ReductionLemmas

/-- List getD after setting a different index is unchanged. -/
theorem getD_set_ne {α : Type} (l : List α) (i j : Nat) (a d : α) (h : i ≠ j) :
    (l.set i a).getD j d = l.getD j d := by
  simp [List.getD, List.getElem?_set_ne h]

/-- List getD after setting the same in-range index returns the new value. -/
theorem getD_set_self {α : Type} (l : List α) (i : Nat) (a d : α) (h : i < l.length) :
    (l.set i a).getD i d = a := by
  simp [List.getD, List.getElem?_set_self, h]

/-- checkConstraints reduces to the group check when no individual
constraint fired. -/
theorem checkConstraints_of_ind_false (iface : WellInterface)
    (injO prodO : WellState → Bool × ℚ) (ws : WellState)
    (h : (checkIndividualConstraints iface ws).1 = false) :
    checkConstraints iface injO prodO ws = checkGroupConstraints iface injO prodO ws := by
  unfold checkConstraints
  dsimp only
  rw [if_neg (by simp [h]), checkIndividual_false_eq iface ws h]

/-- The state after checkConstraints is the input state, a control-mode
write, or the GRUP-plus-rescale write of the group path. -/
theorem checkConstraints_state_cases (iface : WellInterface)
    (injO prodO : WellState → Bool × ℚ) (ws : WellState) :
    (checkConstraints iface injO prodO ws).2 = ws ∨
    (∃ m, (checkConstraints iface injO prodO ws).2 = ws.setInjControl iface.index_of_well m) ∨
    (∃ m, (checkConstraints iface injO prodO ws).2 = ws.setProdControl iface.index_of_well m) ∨
    ((checkConstraints iface injO prodO ws).1 = true ∧
     ∃ s, (checkConstraints iface injO prodO ws).2
          = scaleWellRates (ws.setInjControl iface.index_of_well .GRUP)
              iface.index_of_well s ∨
        (checkConstraints iface injO prodO ws).2
          = scaleWellRates (ws.setProdControl iface.index_of_well .GRUP)
              iface.index_of_well s) := by
  by_cases hind : (checkIndividualConstraints iface ws).1 = true
  · have hres : checkConstraints iface injO prodO ws
        = (true, (checkIndividualConstraints iface ws).2) := by
      unfold checkConstraints
      dsimp only
      rw [if_pos hind]
    rcases checkIndividual_cases iface ws with h | ⟨m, h⟩ | ⟨m, h⟩
    · exact Or.inl (by rw [hres]; exact h)
    · exact Or.inr (Or.inl ⟨m, by rw [hres]; exact h⟩)
    · exact Or.inr (Or.inr (Or.inl ⟨m, by rw [hres]; exact h⟩))
  · have hf : (checkIndividualConstraints iface ws).1 = false := Bool.eq_false_iff.mpr hind
    have hres := checkConstraints_of_ind_false iface injO prodO ws hf
    by_cases hI : (iface.well_ecl.isInjector = true ∧
        ws.currentInjectionControl.getD iface.index_of_well .GRUP ≠ .GRUP)
    · by_cases hgc : (injO ws).1 = true
      · refine Or.inr (Or.inr (Or.inr ⟨?_, (injO ws).2, Or.inl ?_⟩))
        · rw [hres]
          unfold checkGroupConstraints
          dsimp only
          rw [if_pos hI, if_pos hgc]
        · rw [hres]
          unfold checkGroupConstraints
          dsimp only
          rw [if_pos hI, if_pos hgc]
      · refine Or.inl ?_
        rw [hres]
        unfold checkGroupConstraints
        dsimp only
        rw [if_pos hI, if_neg hgc]
    · by_cases hP : (iface.well_ecl.isProducer = true ∧
          ws.currentProductionControl.getD iface.index_of_well .GRUP ≠ .GRUP)
      · by_cases hgc : (prodO ws).1 = true
        · refine Or.inr (Or.inr (Or.inr ⟨?_, (prodO ws).2, Or.inr ?_⟩))
          · rw [hres]
            unfold checkGroupConstraints
            dsimp only
            rw [if_neg hI, if_pos hP, if_pos hgc]
          · rw [hres]
            unfold checkGroupConstraints
            dsimp only
            rw [if_neg hI, if_pos hP, if_pos hgc]
        · refine Or.inl ?_
          rw [hres]
          unfold checkGroupConstraints
          dsimp only
          rw [if_neg hI, if_pos hP, if_neg hgc]
      · refine Or.inl ?_
        rw [hres]
        unfold checkGroupConstraints
        dsimp only
        rw [if_neg hI, if_neg hP]

end ReductionLemmas

section Claims

/-- Claim C1 (code evidence): at a concrete injector whose RESV limit is
violated, checkConstraints returns true while the current injection control
mode recorded in WellState stays RATE: the injector RESV branch of
checkIndividualConstraints assigns the new mode only to a local variable,
so the returned true does not coincide with a control-mode change in
WellState. -/
theorem c1_injector_resv_mode_not_recorded :
    (checkConstraints iface1 falseOracle falseOracle ws1).1 = true ∧
    (checkConstraints iface1 falseOracle falseOracle ws1).2.currentInjectionControl
      = ws1.currentInjectionControl ∧
    ws1.currentInjectionControl = [InjectorCMode.RATE] := by
  refine ⟨?_, ?_, ?_⟩ <;> with_unfolding_all rfl

/-- Claim C8: the gas-oil ratio evaluator used by checkMaxGORLimit yields
the sentinel ten to the hundred (strictly above ten to the fifty) for zero
oil and nonzero gas, exactly zero for zero oil and zero gas, and the
quotient gas over oil otherwise. -/
theorem c8_gor_sentinel (pu : PhaseUsage) (rates : List ℚ) :
    (rates.getD (pu.phase_pos .Liquid) 0 = 0 → rates.getD (pu.phase_pos .Vapour) 0 ≠ 0 →
      gor pu rates = (10 : ℚ) ^ (100 : ℕ) ∧ (10 : ℚ) ^ (50 : ℕ) < gor pu rates) ∧
    (rates.getD (pu.phase_pos .Liquid) 0 = 0 → rates.getD (pu.phase_pos .Vapour) 0 = 0 →
      gor pu rates = 0) ∧
    (rates.getD (pu.phase_pos .Liquid) 0 ≠ 0 →
      gor pu rates
        = rates.getD (pu.phase_pos .Vapour) 0 / rates.getD (pu.phase_pos .Liquid) 0) := by
  refine ⟨fun h0 hg => ?_, fun h0 hg => ?_, fun h0 => ?_⟩
  · unfold gor
    dsimp only
    rw [if_neg (not_not_intro h0), if_pos hg]
    exact ⟨rfl, pow_lt_pow_right₀ (by norm_num) (by norm_num)⟩
  · unfold gor
    dsimp only
    rw [if_neg (not_not_intro h0), if_neg (not_not_intro hg)]
  · unfold gor
    dsimp only
    rw [if_pos h0]

/-- Claim C8 witness: the sentinel case at a concrete rate vector with zero
oil and gas five. -/
theorem c8_gor_sentinel_witness :
    ([0, 0, 5] : List ℚ).getD (pu3.phase_pos .Liquid) 0 = 0 ∧
    ([0, 0, 5] : List ℚ).getD (pu3.phase_pos .Vapour) 0 ≠ 0 ∧
    (gor pu3 [0, 0, 5] = (10 : ℚ) ^ (100 : ℕ) ∧
      (10 : ℚ) ^ (50 : ℕ) < gor pu3 [0, 0, 5]) :=
  ⟨by with_unfolding_all rfl, of_decide_eq_true (by with_unfolding_all rfl),
   (c8_gor_sentinel pu3 [0, 0, 5]).1 (by with_unfolding_all rfl)
     (of_decide_eq_true (by with_unfolding_all rfl))⟩

/-- Claim C9 (counterexample): calculateReservoirRates rewrites the
reservoir-voidage slots of WellState with no group violation involved, so
the claim that voidage slots stay unchanged across calculateReservoirRates
fails at this concrete input. -/
theorem c9_voidage_rewritten_counterexample :
    (calculateReservoirRates iface9 ws9).wellReservoirRates ≠ ws9.wellReservoirRates :=
  of_decide_eq_true (by with_unfolding_all rfl)

/-- Claim C9 (amended): checkConstraints never rewrites voidage, perforation
or potential slots, nor pressures; its only rate write is the group-path
rescale of the well's own row; calculateReservoirRates leaves every field
but the well's own reservoir-voidage row unchanged. -/
theorem c9_frame_amended (iface : WellInterface) (injO prodO : WellState → Bool × ℚ)
    (ws : WellState) :
    ((checkConstraints iface injO prodO ws).2.wellReservoirRates = ws.wellReservoirRates ∧
     (checkConstraints iface injO prodO ws).2.perfPhaseRates = ws.perfPhaseRates ∧
     (checkConstraints iface injO prodO ws).2.wellPotentials = ws.wellPotentials ∧
     (checkConstraints iface injO prodO ws).2.bhp = ws.bhp ∧
     (checkConstraints iface injO prodO ws).2.thp = ws.thp ∧
     ((checkConstraints iface injO prodO ws).2.wellRates = ws.wellRates ∨
      ((checkConstraints iface injO prodO ws).1 = true ∧
       ∃ s, (checkConstraints iface injO prodO ws).2.wellRates
         = ws.wellRates.set iface.index_of_well
             ((ws.wellRates.getD iface.index_of_well []).map (· * s))))) ∧
    ((calculateReservoirRates iface ws).wellRates = ws.wellRates ∧
     (calculateReservoirRates iface ws).perfPhaseRates = ws.perfPhaseRates ∧
     (calculateReservoirRates iface ws).wellPotentials = ws.wellPotentials ∧
     (calculateReservoirRates iface ws).bhp = ws.bhp ∧
     (calculateReservoirRates iface ws).thp = ws.thp ∧
     ∀ j, j ≠ iface.index_of_well →
       (calculateReservoirRates iface ws).wellReservoirRates.getD j []
         = ws.wellReservoirRates.getD j []) := by
  constructor
  · rcases checkConstraints_state_cases iface injO prodO ws with h | ⟨m, h⟩ | ⟨m, h⟩ |
      ⟨ht, s, h | h⟩
    · rw [h]
      exact ⟨rfl, rfl, rfl, rfl, rfl, Or.inl rfl⟩
    · rw [h]
      exact ⟨rfl, rfl, rfl, rfl, rfl, Or.inl rfl⟩
    · rw [h]
      exact ⟨rfl, rfl, rfl, rfl, rfl, Or.inl rfl⟩
    · rw [h]
      refine ⟨rfl, rfl, rfl, rfl, rfl, Or.inr ⟨ht, s, ?_⟩⟩
      rfl
    · rw [h]
      refine ⟨rfl, rfl, rfl, rfl, rfl, Or.inr ⟨ht, s, ?_⟩⟩
      rfl
  · refine ⟨rfl, rfl, rfl, rfl, rfl, fun j hj => ?_⟩
    unfold calculateReservoirRates
    dsimp only
    exact getD_set_ne _ _ _ _ _ (fun he => hj he.symm)

/-- Claim C9 (amended) witness: at the frame fixture, a well index other
than the written one keeps its voidage row. -/
theorem c9_frame_amended_witness :
    (1 : Nat) ≠ iface9.index_of_well ∧
    (calculateReservoirRates iface9 ws9).wellReservoirRates.getD 1 []
      = ws9.wellReservoirRates.getD 1 [] :=
  ⟨by with_unfolding_all decide,
   (c9_frame_amended iface9 falseOracle falseOracle ws9).2.2.2.2.2.2 1
     (by with_unfolding_all decide)⟩

/-- A violated rate limit needs a configured rate limit. -/
theorem rateLimitViolated_rate_flag (iface : WellInterface) (e : WellEconProductionLimits)
    (ws : WellState) (h : rateLimitViolated iface e ws = true) : e.onAnyRateLimit = true := by
  unfold rateLimitViolated at h
  by_cases hr : e.onAnyRateLimit = true
  · exact hr
  · rw [if_neg hr] at h
    cases h

/-- A configured rate limit makes some economic limit effective. -/
theorem onAnyEffective_of_rate (e : WellEconProductionLimits)
    (h : e.onAnyRateLimit = true) : e.onAnyEffectiveLimit = true := by
  simp [WellEconProductionLimits.onAnyEffectiveLimit, h]

/-- A configured ratio limit makes some economic limit effective. -/
theorem onAnyEffective_of_ratio (e : WellEconProductionLimits)
    (h : e.onAnyRatioLimit = true) : e.onAnyEffectiveLimit = true := by
  simp [WellEconProductionLimits.onAnyEffectiveLimit, h]

/-- With every supported ratio limit unconfigured, the ratio check leaves
the report unchanged. -/
theorem checkRatio_all_off (iface : WellInterface) (e : WellEconProductionLimits)
    (ws : WellState) (r : RatioLimitCheckReport) (h1 : e.onMaxWaterCut = false)
    (h2 : e.onMaxGasOilRatio = false) (h3 : e.onMaxWaterGasRatio = false) :
    checkRatioEconLimits iface e ws r = r := by
  unfold checkRatioEconLimits
  simp [h1, h2, h3]

/-- A violated ratio report needs a configured ratio limit. -/
theorem anyRatio_of_violated (iface : WellInterface) (e : WellEconProductionLimits)
    (ws : WellState)
    (h : (checkRatioEconLimits iface e ws RatioLimitCheckReport.initial).ratio_limit_violated
      = true) : e.onAnyRatioLimit = true := by
  by_cases h1 : e.onMaxWaterCut = true
  · simp [WellEconProductionLimits.onAnyRatioLimit, h1]
  · by_cases h2 : e.onMaxGasOilRatio = true
    · simp [WellEconProductionLimits.onAnyRatioLimit, h2]
    · by_cases h3 : e.onMaxWaterGasRatio = true
      · simp [WellEconProductionLimits.onAnyRatioLimit, h3]
      · exfalso
        rw [checkRatio_all_off iface e ws _ (Bool.eq_false_iff.mpr h1)
          (Bool.eq_false_iff.mpr h2) (Bool.eq_false_iff.mpr h3)] at h
        simp [RatioLimitCheckReport.initial] at h

/-- Claim C2: with no individual constraint fired, checkConstraints runs the
parent-group check: on a violation with scale factor s it forces GRUP mode,
multiplies every phase entry of the well's rate row by s and returns true;
with the mode already GRUP it returns false leaving WellState untouched. -/
theorem c2_group_escalation (iface : WellInterface) (injO prodO : WellState → Bool × ℚ)
    (ws : WellState) (h : (checkIndividualConstraints iface ws).1 = false) :
    (iface.well_ecl.isInjector = true →
      ((ws.currentInjectionControl.getD iface.index_of_well .GRUP ≠ .GRUP →
        ∀ s, injO ws = (true, s) →
          checkConstraints iface injO prodO ws
            = (true, scaleWellRates (ws.setInjControl iface.index_of_well .GRUP)
                iface.index_of_well s)) ∧
       (iface.well_ecl.isProducer = false →
        ws.currentInjectionControl.getD iface.index_of_well .GRUP = .GRUP →
          checkConstraints iface injO prodO ws = (false, ws)))) ∧
    (iface.well_ecl.isProducer = true →
      ((iface.well_ecl.isInjector = false →
        ws.currentProductionControl.getD iface.index_of_well .GRUP ≠ .GRUP →
        ∀ s, prodO ws = (true, s) →
          checkConstraints iface injO prodO ws
            = (true, scaleWellRates (ws.setProdControl iface.index_of_well .GRUP)
                iface.index_of_well s)) ∧
       (iface.well_ecl.isInjector = false →
        ws.currentProductionControl.getD iface.index_of_well .GRUP = .GRUP →
          checkConstraints iface injO prodO ws = (false, ws)))) ∧
    (∀ (w : WellState) (s : ℚ), iface.index_of_well < w.wellRates.length →
      (scaleWellRates w iface.index_of_well s).wellRates.getD iface.index_of_well []
        = (w.wellRates.getD iface.index_of_well []).map (· * s)) := by
  rw [checkConstraints_of_ind_false iface injO prodO ws h]
  refine ⟨fun hInj => ⟨?_, ?_⟩, fun hProd => ⟨?_, ?_⟩, ?_⟩
  · intro hmode s hgc
    unfold checkGroupConstraints
    dsimp only
    rw [if_pos ⟨hInj, hmode⟩, hgc]
    simp
  · intro hP hmode
    unfold checkGroupConstraints
    dsimp only
    rw [if_neg (fun hc => hc.2 hmode), if_neg (fun hc => by simp [hP] at hc)]
  · intro hIfalse hmode s hgc
    unfold checkGroupConstraints
    dsimp only
    rw [if_neg (fun hc => by simp [hIfalse] at hc), if_pos ⟨hProd, hmode⟩, hgc]
    simp
  · intro hIfalse hmode
    unfold checkGroupConstraints
    dsimp only
    rw [if_neg (fun hc => by simp [hIfalse] at hc), if_neg (fun hc => hc.2 hmode)]
  · intro w s hlen
    unfold scaleWellRates
    dsimp only
    exact getD_set_self _ _ _ _ hlen

/-- Claim C2 witness: the producer group fixture with scale factor seven
tenths rescales the rate row to exactly seven tenths of each entry. -/
theorem c2_group_escalation_witness :
    (checkIndividualConstraints iface2 ws2).1 = false ∧
    ws2.currentProductionControl.getD 0 .GRUP ≠ .GRUP ∧
    checkConstraints iface2 falseOracle prodOracle7 ws2
      = (true, scaleWellRates (ws2.setProdControl 0 .GRUP) 0 (7/10)) ∧
    (scaleWellRates (ws2.setProdControl 0 .GRUP) 0 (7/10)).wellRates
      = [[-7/10, -14/10, -21/10]] := by
  refine ⟨by with_unfolding_all rfl, by with_unfolding_all decide, ?_, by with_unfolding_all rfl⟩
  exact ((c2_group_escalation iface2 falseOracle prodOracle7 ws2
    (by with_unfolding_all rfl)).2.1 rfl).1 rfl (by with_unfolding_all decide) (7/10) rfl

/-- Claim C4: with the well not stopped and the rate-limit test violated,
updateWellTestStateEconomic closes the well with reason ECONOMIC and returns
without touching the completion records (no ratio limit is evaluated), and
checkRateEconLimits holds exactly when some configured minimum oil, gas or
liquid rate exceeds the corresponding absolute signed rate. -/
theorem c4_rate_limit_short_circuit (iface : WellInterface) (ws : WellState) (t : ℚ)
    (wts : WellTestState)
    (h1 : iface.wellIsStopped = false)
    (h2 : rateLimitViolated iface iface.well_ecl.econLimits ws = true) :
    updateWellTestStateEconomic iface ws t wts
      = wts.closeWell iface.well_ecl.name .ECONOMIC t ∧
    (updateWellTestStateEconomic iface ws t wts).completions = wts.completions ∧
    (updateWellTestStateEconomic iface ws t wts).hasWellClosed
        iface.well_ecl.name .ECONOMIC = true ∧
    (∀ (pu : PhaseUsage) (e : WellEconProductionLimits) (rates : List ℚ),
      checkRateEconLimits pu e rates = true ↔
        ((e.onMinOilRate = true ∧ |rates.getD (pu.phase_pos .Liquid) 0| < e.minOilRate) ∨
         (e.onMinGasRate = true ∧ |rates.getD (pu.phase_pos .Vapour) 0| < e.minGasRate) ∨
         (e.onMinLiquidRate = true ∧
           |rates.getD (pu.phase_pos .Liquid) 0 + rates.getD (pu.phase_pos .Aqua) 0|
             < e.minLiquidRate))) := by
  have heff := onAnyEffective_of_rate _ (rateLimitViolated_rate_flag iface _ ws h2)
  have hres : updateWellTestStateEconomic iface ws t wts
      = wts.closeWell iface.well_ecl.name .ECONOMIC t := by
    unfold updateWellTestStateEconomic
    dsimp only
    rw [if_neg (by simp [h1]), if_neg (by simp [heff]), if_pos h2]
  refine ⟨hres, ?_, ?_, ?_⟩
  · rw [hres]
    exact closeWell_completions wts _ _ t
  · rw [hres]
    exact hasWellClosed_closeWell_self wts _ _ t
  · intro pu e rates
    unfold checkRateEconLimits
    constructor
    · intro hh
      split_ifs at hh with ha hb hc
      · exact Or.inl ha
      · exact Or.inr (Or.inl hb)
      · exact Or.inr (Or.inr hc)
    · intro hh
      split_ifs with ha hb hc
      · rfl
      · rfl
      · rfl
      · rcases hh with hd | hd | hd
        · exact absurd hd ha
        · exact absurd hd hb
        · exact absurd hd hc

/-- Claim C4 witness: the short-circuit fixture violates both a minimum oil
rate and a max water cut, yet only the rate-limit closure executes: the well
is closed and no completion record is written. -/
theorem c4_rate_limit_short_circuit_witness :
    iface4.wellIsStopped = false ∧
    rateLimitViolated iface4 iface4.well_ecl.econLimits ws4 = true ∧
    checkMaxRatioLimitWell iface4 ws4 iface4.well_ecl.econLimits.maxWaterCut waterCut = true ∧
    updateWellTestStateEconomic iface4 ws4 0 wts0 = wts0.closeWell "W4" .ECONOMIC 0 ∧
    (updateWellTestStateEconomic iface4 ws4 0 wts0).completions = [] := by
  refine ⟨rfl, by with_unfolding_all rfl, by with_unfolding_all rfl, ?_, ?_⟩
  · exact (c4_rate_limit_short_circuit iface4 ws4 0 wts0 rfl (by with_unfolding_all rfl)).1
  · exact (c4_rate_limit_short_circuit iface4 ws4 0 wts0 rfl (by with_unfolding_all rfl)).2.1

/-- Claim C3: on the CON workover path, after the worst-offending completion
is recorded closed, if every OPEN connection belongs to a completion
recorded closed then the well itself is closed with reason ECONOMIC. -/
theorem c3_all_completions_closed_well_closed (iface : WellInterface) (ws : WellState)
    (t : ℚ) (wts : WellTestState)
    (h1 : iface.wellIsStopped = false)
    (h2 : rateLimitViolated iface iface.well_ecl.econLimits ws = false)
    (h3 : (checkRatioEconLimits iface iface.well_ecl.econLimits ws
        RatioLimitCheckReport.initial).ratio_limit_violated = true)
    (h4 : iface.well_ecl.econLimits.workover = .CON)
    (h5 : allOpenConnectionsClosed iface
        (wts.addClosedCompletion iface.well_ecl.name
          (checkRatioEconLimits iface iface.well_ecl.econLimits ws
            RatioLimitCheckReport.initial).worst_offending_completion t) = true) :
    updateWellTestStateEconomic iface ws t wts
      = (wts.addClosedCompletion iface.well_ecl.name
          (checkRatioEconLimits iface iface.well_ecl.econLimits ws
            RatioLimitCheckReport.initial).worst_offending_completion t).closeWell
          iface.well_ecl.name .ECONOMIC t ∧
    (updateWellTestStateEconomic iface ws t wts).hasWellClosed
        iface.well_ecl.name .ECONOMIC = true := by
  have hratio := anyRatio_of_violated iface _ ws h3
  have heff := onAnyEffective_of_ratio _ hratio
  have hres : updateWellTestStateEconomic iface ws t wts
      = (wts.addClosedCompletion iface.well_ecl.name
          (checkRatioEconLimits iface iface.well_ecl.econLimits ws
            RatioLimitCheckReport.initial).worst_offending_completion t).closeWell
          iface.well_ecl.name .ECONOMIC t := by
    unfold updateWellTestStateEconomic
    dsimp only
    rw [if_neg (by simp [h1]), if_neg (by simp [heff]), if_neg (by simp [h2]),
        if_neg (by simp [hratio]), if_pos h3, h4]
    dsimp only
    rw [if_pos h5]
  exact ⟨hres, by rw [hres]; exact hasWellClosed_closeWell_self _ _ _ t⟩

/-- Claim C3 witness: the CON fixture closes its single open connection's
completion and, all open connections being closed, the well is then closed
with reason ECONOMIC. -/
theorem c3_all_completions_closed_well_closed_witness :
    iface3.wellIsStopped = false ∧
    rateLimitViolated iface3 iface3.well_ecl.econLimits ws3 = false ∧
    (checkRatioEconLimits iface3 iface3.well_ecl.econLimits ws3
        RatioLimitCheckReport.initial).ratio_limit_violated = true ∧
    iface3.well_ecl.econLimits.workover = .CON ∧
    (updateWellTestStateEconomic iface3 ws3 0 wts0).hasWellClosed "W3" .ECONOMIC = true := by
  refine ⟨rfl, by with_unfolding_all rfl, by with_unfolding_all rfl, rfl, ?_⟩
  exact (c3_all_completions_closed_well_closed iface3 ws3 0 wts0 rfl
    (by with_unfolding_all rfl) (by with_unfolding_all rfl) rfl
    (by with_unfolding_all rfl)).2

/-- Claim C5: under the code's asserted precondition that the maximum
completion ratio (the worst-offender scan over per-completion sums of
perforation phase rates) exceeds the limit, checkMaxRatioLimitCompletions
yields violation extent equal to that maximum over the limit, strictly above
one, keeps the larger of the recorded and the new extents across ratio
kinds, and on an overwrite the selected completion attains the maximum
completion ratio. -/
theorem c5_worst_offender_selection (iface : WellInterface) (ws : WellState)
    (ratioFunc : PhaseUsage → List ℚ → ℚ) (limit : ℚ) (report : RatioLimitCheckReport)
    (hlim : 0 < limit)
    (hviol : limit < (worstCompletionScan iface ws ratioFunc).2) :
    ((checkMaxRatioLimitCompletions iface ws limit ratioFunc report).violation_extent
      = max report.violation_extent ((worstCompletionScan iface ws ratioFunc).2 / limit)) ∧
    (1 < (worstCompletionScan iface ws ratioFunc).2 / limit) ∧
    (report.violation_extent < (worstCompletionScan iface ws ratioFunc).2 / limit →
      (checkMaxRatioLimitCompletions iface ws limit ratioFunc report).violation_extent
        = (worstCompletionScan iface ws ratioFunc).2 / limit ∧
      ∃ c ∈ completionRatioList iface ws ratioFunc,
        (checkMaxRatioLimitCompletions iface ws limit ratioFunc
          report).worst_offending_completion = c.1 ∧
        c.2 = (worstCompletionScan iface ws ratioFunc).2 ∧
        ∀ d ∈ completionRatioList iface ws ratioFunc, d.2 ≤ c.2) := by
  have hone : 1 < (worstCompletionScan iface ws ratioFunc).2 / limit :=
    (one_lt_div hlim).mpr hviol
  refine ⟨?_, hone, ?_⟩
  · unfold checkMaxRatioLimitCompletions
    dsimp only
    split_ifs with hgt
    · rw [max_eq_right (le_of_lt hgt)]
    · rw [max_eq_left (le_of_not_lt hgt)]
  · intro hlt
    have hext : (checkMaxRatioLimitCompletions iface ws limit ratioFunc
        report).violation_extent = (worstCompletionScan iface ws ratioFunc).2 / limit := by
      unfold checkMaxRatioLimitCompletions
      dsimp only
      rw [if_pos hlt]
    have hworst : (checkMaxRatioLimitCompletions iface ws limit ratioFunc
        report).worst_offending_completion = (worstCompletionScan iface ws ratioFunc).1 := by
      unfold checkMaxRatioLimitCompletions
      dsimp only
      rw [if_pos hlt]
    have hacc : ((INVALIDCOMPLETION, (0 : ℚ)) : Int × ℚ).2
        < ((completionRatioList iface ws ratioFunc).foldl scanStep
            (INVALIDCOMPLETION, (0 : ℚ))).2 := by
      have hpos : (0 : ℚ) < (worstCompletionScan iface ws ratioFunc).2 :=
        lt_trans hlim hviol
      unfold worstCompletionScan at hpos
      exact hpos
    obtain ⟨c, hc, he⟩ := foldl_scanStep_attains (completionRatioList iface ws ratioFunc)
      (INVALIDCOMPLETION, (0 : ℚ)) hacc
    refine ⟨hext, c, hc, ?_, ?_, ?_⟩
    · rw [hworst]
      unfold worstCompletionScan
      rw [he]
    · unfold worstCompletionScan
      rw [he]
    · intro d hd
      have h1 := elem_le_foldl_max (completionRatioList iface ws ratioFunc) d hd
        ((INVALIDCOMPLETION, (0 : ℚ)) : Int × ℚ).2
      rw [← foldl_scanStep_snd, he] at h1
      exact h1

/-- Claim C5 witness: three completions with water cuts three tenths, nine
tenths and six tenths against a limit of one half select completion 2 with
extent nine fifths. -/
theorem c5_worst_offender_selection_witness :
    (0 : ℚ) < 1/2 ∧
    (1/2 : ℚ) < (worstCompletionScan iface5 ws5 waterCut).2 ∧
    (checkMaxRatioLimitCompletions iface5 ws5 (1/2) waterCut
        RatioLimitCheckReport.initial).violation_extent = 9/5 ∧
    (checkMaxRatioLimitCompletions iface5 ws5 (1/2) waterCut
        RatioLimitCheckReport.initial).worst_offending_completion = 2 := by
  have h := c5_worst_offender_selection iface5 ws5 waterCut (1/2)
    RatioLimitCheckReport.initial (by with_unfolding_all decide)
    (by with_unfolding_all decide)
  refine ⟨by with_unfolding_all decide, by with_unfolding_all decide, ?_,
    by with_unfolding_all rfl⟩
  rw [(h.2.2 (by with_unfolding_all decide)).1]
  with_unfolding_all rfl

/-- Claim C10: the report is overwritten exactly when the new extent
strictly exceeds the recorded one (equal extents keep the earlier ratio
kind), and appending completions whose ratio does not strictly exceed the
scan's running maximum leaves the scan unchanged (equal ratios keep the
earlier completion). -/
theorem c10_strict_tie_breaking (iface : WellInterface) (ws : WellState)
    (ratioFunc : PhaseUsage → List ℚ → ℚ) (limit : ℚ) (report : RatioLimitCheckReport) :
    (checkMaxRatioLimitCompletions iface ws limit ratioFunc report = report ↔
      (worstCompletionScan iface ws ratioFunc).2 / limit ≤ report.violation_extent) ∧
    (∀ l2 : List (Int × ℚ),
      (∀ c ∈ l2, c.2 ≤ ((completionRatioList iface ws ratioFunc).foldl scanStep
          (INVALIDCOMPLETION, (0 : ℚ))).2) →
      ((completionRatioList iface ws ratioFunc) ++ l2).foldl scanStep
          (INVALIDCOMPLETION, (0 : ℚ))
        = (completionRatioList iface ws ratioFunc).foldl scanStep
            (INVALIDCOMPLETION, (0 : ℚ))) := by
  constructor
  · constructor
    · intro heq
      by_contra hnle
      push_neg at hnle
      have hext : (checkMaxRatioLimitCompletions iface ws limit ratioFunc
          report).violation_extent = (worstCompletionScan iface ws ratioFunc).2 / limit := by
        unfold checkMaxRatioLimitCompletions
        dsimp only
        rw [if_pos hnle]
      rw [heq] at hext
      exact absurd hext (ne_of_lt hnle)
    · intro hle
      unfold checkMaxRatioLimitCompletions
      dsimp only
      rw [if_neg (not_lt.mpr hle)]
  · intro l2 hc
    rw [List.foldl_append]
    exact foldl_scanStep_no_fire l2 _ hc

/-- Claim C10 witness: a report already holding extent nine fifths is not
overwritten by an equal extent, and a later completion with an equal ratio
nine tenths does not displace the scan's earlier candidate. -/
theorem c10_strict_tie_breaking_witness :
    ((worstCompletionScan iface5 ws5 waterCut).2 / (1/2) ≤ (9/5 : ℚ)) ∧
    checkMaxRatioLimitCompletions iface5 ws5 (1/2) waterCut ⟨true, 2, 9/5⟩
      = ⟨true, 2, 9/5⟩ ∧
    ((completionRatioList iface5 ws5 waterCut) ++ [(7, 9/10)]).foldl scanStep
        (INVALIDCOMPLETION, (0 : ℚ))
      = (completionRatioList iface5 ws5 waterCut).foldl scanStep
          (INVALIDCOMPLETION, (0 : ℚ)) := by
  have h := c10_strict_tie_breaking iface5 ws5 waterCut (1/2) ⟨true, 2, 9/5⟩
  refine ⟨by with_unfolding_all decide, h.1.mpr (by with_unfolding_all decide),
    h.2 [(7, 9/10)] ?_⟩
  intro c hcmem
  simp only [List.mem_singleton] at hcmem
  subst hcmem
  with_unfolding_all decide

/-- The CON workover step of updateWellTestStateEconomic is idempotent on
the ledger. -/
theorem conStep_idem (iface : WellInterface) (n : String) (wc : Int) (t : ℚ)
    (w : WellTestState) :
    (if allOpenConnectionsClosed iface
        ((if allOpenConnectionsClosed iface (w.addClosedCompletion n wc t) = true
          then (w.addClosedCompletion n wc t).closeWell n .ECONOMIC t
          else w.addClosedCompletion n wc t).addClosedCompletion n wc t) = true
     then ((if allOpenConnectionsClosed iface (w.addClosedCompletion n wc t) = true
            then (w.addClosedCompletion n wc t).closeWell n .ECONOMIC t
            else w.addClosedCompletion n wc t).addClosedCompletion n wc t).closeWell
            n .ECONOMIC t
     else (if allOpenConnectionsClosed iface (w.addClosedCompletion n wc t) = true
           then (w.addClosedCompletion n wc t).closeWell n .ECONOMIC t
           else w.addClosedCompletion n wc t).addClosedCompletion n wc t)
    = (if allOpenConnectionsClosed iface (w.addClosedCompletion n wc t) = true
       then (w.addClosedCompletion n wc t).closeWell n .ECONOMIC t
       else w.addClosedCompletion n wc t) := by
  by_cases hall : allOpenConnectionsClosed iface (w.addClosedCompletion n wc t) = true
  · rw [if_pos hall]
    have hhas : ((w.addClosedCompletion n wc t).closeWell n .ECONOMIC t).hasCompletion n wc
        = true := by
      rw [hasCompletion_congr _ (w.addClosedCompletion n wc t) n wc
        (closeWell_completions _ n _ t)]
      exact hasCompletion_addClosedCompletion_self w n wc t
    rw [addClosedCompletion_of_has _ n wc t hhas]
    rw [if_pos (by
      rw [allOpen_congr iface _ (w.addClosedCompletion n wc t)
        (closeWell_completions _ n _ t)]
      exact hall)]
    exact closeWell_idem _ n _ t t
  · rw [if_neg hall]
    rw [addClosedCompletion_of_has _ n wc t
      (hasCompletion_addClosedCompletion_self w n wc t)]
    rw [if_neg hall]

/-- Claim C7: updateWellTestStateEconomic is a no-op when the well is
already stopped or no economic limit is effective, and running it twice in
succession with unchanged WellState equals running it once — the second call
adds nothing to the ledger. -/
theorem c7_econ_noop_idempotent (iface : WellInterface) (ws : WellState) (t : ℚ)
    (wts : WellTestState) :
    ((iface.wellIsStopped = true ∨ iface.well_ecl.econLimits.onAnyEffectiveLimit = false) →
      updateWellTestStateEconomic iface ws t wts = wts) ∧
    updateWellTestStateEconomic iface ws t (updateWellTestStateEconomic iface ws t wts)
      = updateWellTestStateEconomic iface ws t wts := by
  have hnoop : ∀ w' : WellTestState,
      (iface.wellIsStopped = true ∨ iface.well_ecl.econLimits.onAnyEffectiveLimit = false) →
      updateWellTestStateEconomic iface ws t w' = w' := by
    intro w' hcase
    unfold updateWellTestStateEconomic
    rcases hcase with hstop | heff
    · rw [if_pos hstop]
    · by_cases hstop : iface.wellIsStopped = true
      · rw [if_pos hstop]
      · rw [if_neg hstop]
        dsimp only
        rw [if_pos (by simp [heff])]
  refine ⟨hnoop wts, ?_⟩
  by_cases hstop : iface.wellIsStopped = true
  · rw [hnoop wts (Or.inl hstop)]
    exact hnoop wts (Or.inl hstop)
  · by_cases heff : iface.well_ecl.econLimits.onAnyEffectiveLimit = true
    · by_cases hrate : rateLimitViolated iface iface.well_ecl.econLimits ws = true
      · have hstep : ∀ w' : WellTestState, updateWellTestStateEconomic iface ws t w'
            = w'.closeWell iface.well_ecl.name .ECONOMIC t := by
          intro w'
          unfold updateWellTestStateEconomic
          dsimp only
          rw [if_neg hstop, if_neg (by simp [heff]), if_pos hrate]
        rw [hstep wts, hstep (wts.closeWell iface.well_ecl.name .ECONOMIC t)]
        exact closeWell_idem wts _ _ t t
      · by_cases hratio : iface.well_ecl.econLimits.onAnyRatioLimit = true
        · by_cases hviol : (checkRatioEconLimits iface iface.well_ecl.econLimits ws
              RatioLimitCheckReport.initial).ratio_limit_violated = true
          · cases hwork : iface.well_ecl.econLimits.workover with
            | NONE =>
              have hstep : ∀ w' : WellTestState,
                  updateWellTestStateEconomic iface ws t w' = w' := by
                intro w'
                unfold updateWellTestStateEconomic
                dsimp only
                rw [if_neg hstop, if_neg (by simp [heff]), if_neg (by simp [hrate]),
                    if_neg (by simp [hratio]), if_pos hviol, hwork]
              rw [hstep wts]
              exact hstep wts
            | OTHER =>
              have hstep : ∀ w' : WellTestState,
                  updateWellTestStateEconomic iface ws t w' = w' := by
                intro w'
                unfold updateWellTestStateEconomic
                dsimp only
                rw [if_neg hstop, if_neg (by simp [heff]), if_neg (by simp [hrate]),
                    if_neg (by simp [hratio]), if_pos hviol, hwork]
              rw [hstep wts]
              exact hstep wts
            | WELL =>
              have hstep : ∀ w' : WellTestState, updateWellTestStateEconomic iface ws t w'
                  = w'.closeWell iface.well_ecl.name .ECONOMIC t := by
                intro w'
                unfold updateWellTestStateEconomic
                dsimp only
                rw [if_neg hstop, if_neg (by simp [heff]), if_neg (by simp [hrate]),
                    if_neg (by simp [hratio]), if_pos hviol, hwork]
              rw [hstep wts, hstep (wts.closeWell iface.well_ecl.name .ECONOMIC t)]
              exact closeWell_idem wts _ _ t t
            | CON =>
              have hstep : ∀ w' : WellTestState, updateWellTestStateEconomic iface ws t w'
                  = (if allOpenConnectionsClosed iface
                        (w'.addClosedCompletion iface.well_ecl.name
                          (checkRatioEconLimits iface iface.well_ecl.econLimits ws
                            RatioLimitCheckReport.initial).worst_offending_completion t)
                        = true
                     then (w'.addClosedCompletion iface.well_ecl.name
                            (checkRatioEconLimits iface iface.well_ecl.econLimits ws
                              RatioLimitCheckReport.initial).worst_offending_completion
                            t).closeWell iface.well_ecl.name .ECONOMIC t
                     else w'.addClosedCompletion iface.well_ecl.name
                            (checkRatioEconLimits iface iface.well_ecl.econLimits ws
                              RatioLimitCheckReport.initial).worst_offending_completion t) := by
                intro w'
                unfold updateWellTestStateEconomic
                dsimp only
                rw [if_neg hstop, if_neg (by simp [heff]), if_neg (by simp [hrate]),
                    if_neg (by simp [hratio]), if_pos hviol, hwork]
              rw [hstep wts, hstep]
              exact conStep_idem iface iface.well_ecl.name _ t wts
          · have hstep : ∀ w' : WellTestState,
                updateWellTestStateEconomic iface ws t w' = w' := by
              intro w'
              unfold updateWellTestStateEconomic
              dsimp only
              rw [if_neg hstop, if_neg (by simp [heff]), if_neg (by simp [hrate]),
                  if_neg (by simp [hratio]), if_neg hviol]
            rw [hstep wts]
            exact hstep wts
        · have hstep : ∀ w' : WellTestState,
              updateWellTestStateEconomic iface ws t w' = w' := by
            intro w'
            unfold updateWellTestStateEconomic
            dsimp only
            rw [if_neg hstop, if_neg (by simp [heff]), if_neg (by simp [hrate]),
                if_pos hratio]
          rw [hstep wts]
          exact hstep wts
    · have heffF : iface.well_ecl.econLimits.onAnyEffectiveLimit = false :=
        Bool.eq_false_iff.mpr heff
      rw [hnoop wts (Or.inr heffF)]
      exact hnoop wts (Or.inr heffF)

/-- Claim C7 witness: a stopped well fixture is a no-op on the ledger. -/
theorem c7_econ_noop_idempotent_witness :
    iface7.wellIsStopped = true ∧
    updateWellTestStateEconomic iface7 ws1 0 wts0 = wts0 :=
  ⟨rfl, (c7_econ_noop_idempotent iface7 ws1 0 wts0).1 (Or.inl rfl)⟩

/-- The injector check chain equals a find-first over the fixed priority
order of injector controls. -/
theorem injectorFired_eq_find (iface : WellInterface) (ws : WellState) :
    injectorFired iface ws
      = (injPriorityOrder.find? (injViolated iface ws)).map (injWrite iface ws) := by
  unfold injectorFired
  dsimp only
  simp only [injPriorityOrder]
  by_cases h1 : (iface.well_ecl.injectionControls.hasControl .BHP = true ∧
      ws.currentInjectionControl.getD iface.index_of_well .GRUP ≠ .BHP ∧
      iface.well_ecl.injectionControls.bhp_limit < ws.bhp.getD iface.index_of_well 0)
  · have eh1 : injViolated iface ws InjectorCMode.BHP = true := decide_eq_true h1
    rw [if_pos h1, List.find?_cons_of_pos _ eh1]
    rfl
  · have eh1 : ¬(injViolated iface ws InjectorCMode.BHP = true) := fun hh => h1 (of_decide_eq_true hh)
    rw [if_neg h1, List.find?_cons_of_neg _ eh1]
    by_cases h2 : (iface.well_ecl.injectionControls.hasControl .RATE = true ∧
        ws.currentInjectionControl.getD iface.index_of_well .GRUP ≠ .RATE ∧
        iface.well_ecl.injectionControls.surface_rate < injCurrentRate iface ws)
    · have eh2 : injViolated iface ws InjectorCMode.RATE = true := decide_eq_true h2
      rw [if_pos h2, List.find?_cons_of_pos _ eh2]
      rfl
    · have eh2 : ¬(injViolated iface ws InjectorCMode.RATE = true) := fun hh => h2 (of_decide_eq_true hh)
      rw [if_neg h2, List.find?_cons_of_neg _ eh2]
      by_cases h3 : (iface.well_ecl.injectionControls.hasControl .RESV = true ∧
          ws.currentInjectionControl.getD iface.index_of_well .GRUP ≠ .RESV ∧
          iface.well_ecl.injectionControls.reservoir_rate < injResvCurrentRate iface ws)
      · have eh3 : injViolated iface ws InjectorCMode.RESV = true := decide_eq_true h3
        rw [if_pos h3, List.find?_cons_of_pos _ eh3]
        rfl
      · have eh3 : ¬(injViolated iface ws InjectorCMode.RESV = true) := fun hh => h3 (of_decide_eq_true hh)
        rw [if_neg h3, List.find?_cons_of_neg _ eh3]
        by_cases h4 : (iface.well_ecl.injectionControls.hasControl .THP = true ∧
            ws.currentInjectionControl.getD iface.index_of_well .GRUP ≠ .THP ∧
            iface.thpConstraint < ws.thp.getD iface.index_of_well 0)
        · have eh4 : injViolated iface ws InjectorCMode.THP = true := decide_eq_true h4
          rw [if_pos h4, List.find?_cons_of_pos _ eh4]
          rfl
        · have eh4 : ¬(injViolated iface ws InjectorCMode.THP = true) := fun hh => h4 (of_decide_eq_true hh)
          rw [if_neg h4, List.find?_cons_of_neg _ eh4]
          rfl

/-- The producer check chain equals a find-first over the fixed priority
order of producer controls. -/
theorem producerFired_eq_find (iface : WellInterface) (ws : WellState) :
    producerFired iface ws
      = (prodPriorityOrder.find? (prodViolated iface ws)).map (prodWrite iface ws) := by
  unfold producerFired
  dsimp only
  simp only [prodPriorityOrder]
  by_cases h1 : (iface.well_ecl.productionControls.hasControl .BHP = true ∧
      ws.currentProductionControl.getD iface.index_of_well .GRUP ≠ .BHP ∧
      iface.well_ecl.productionControls.bhp_limit > ws.bhp.getD iface.index_of_well 0)
  · have eh1 : prodViolated iface ws ProducerCMode.BHP = true := decide_eq_true h1
    rw [if_pos h1, List.find?_cons_of_pos _ eh1]
    rfl
  · have eh1 : ¬(prodViolated iface ws ProducerCMode.BHP = true) := fun hh => h1 (of_decide_eq_true hh)
    rw [if_neg h1, List.find?_cons_of_neg _ eh1]
    by_cases h2 : (iface.well_ecl.productionControls.hasControl .ORAT = true ∧
        ws.currentProductionControl.getD iface.index_of_well .GRUP ≠ .ORAT ∧
        iface.well_ecl.productionControls.oil_rate <
          -(ws.wellRates.getD iface.index_of_well []).getD (iface.pu.phase_pos .Liquid) 0)
    · have eh2 : prodViolated iface ws ProducerCMode.ORAT = true := decide_eq_true h2
      rw [if_pos h2, List.find?_cons_of_pos _ eh2]
      rfl
    · have eh2 : ¬(prodViolated iface ws ProducerCMode.ORAT = true) := fun hh => h2 (of_decide_eq_true hh)
      rw [if_neg h2, List.find?_cons_of_neg _ eh2]
      by_cases h3 : (iface.well_ecl.productionControls.hasControl .WRAT = true ∧
          ws.currentProductionControl.getD iface.index_of_well .GRUP ≠ .WRAT ∧
          iface.well_ecl.productionControls.water_rate <
            -(ws.wellRates.getD iface.index_of_well []).getD (iface.pu.phase_pos .Aqua) 0)
      · have eh3 : prodViolated iface ws ProducerCMode.WRAT = true := decide_eq_true h3
        rw [if_pos h3, List.find?_cons_of_pos _ eh3]
        rfl
      · have eh3 : ¬(prodViolated iface ws ProducerCMode.WRAT = true) := fun hh => h3 (of_decide_eq_true hh)
        rw [if_neg h3, List.find?_cons_of_neg _ eh3]
        by_cases h4 : (iface.well_ecl.productionControls.hasControl .GRAT = true ∧
            ws.currentProductionControl.getD iface.index_of_well .GRUP ≠ .GRAT ∧
            iface.well_ecl.productionControls.gas_rate <
              -(ws.wellRates.getD iface.index_of_well []).getD (iface.pu.phase_pos .Vapour) 0)
        · have eh4 : prodViolated iface ws ProducerCMode.GRAT = true := decide_eq_true h4
          rw [if_pos h4, List.find?_cons_of_pos _ eh4]
          rfl
        · have eh4 : ¬(prodViolated iface ws ProducerCMode.GRAT = true) := fun hh => h4 (of_decide_eq_true hh)
          rw [if_neg h4, List.find?_cons_of_neg _ eh4]
          by_cases h5 : (iface.well_ecl.productionControls.hasControl .LRAT = true ∧
              ws.currentProductionControl.getD iface.index_of_well .GRUP ≠ .LRAT ∧
              iface.well_ecl.productionControls.liquid_rate <
                -(ws.wellRates.getD iface.index_of_well []).getD (iface.pu.phase_pos .Liquid) 0
                - (ws.wellRates.getD iface.index_of_well []).getD (iface.pu.phase_pos .Aqua) 0)
          · have eh5 : prodViolated iface ws ProducerCMode.LRAT = true := decide_eq_true h5
            rw [if_pos h5, List.find?_cons_of_pos _ eh5]
            rfl
          · have eh5 : ¬(prodViolated iface ws ProducerCMode.LRAT = true) := fun hh => h5 (of_decide_eq_true hh)
            rw [if_neg h5, List.find?_cons_of_neg _ eh5]
            by_cases h6 : (iface.well_ecl.productionControls.hasControl .RESV = true ∧
                ws.currentProductionControl.getD iface.index_of_well .GRUP ≠ .RESV ∧
                ((iface.well_ecl.productionControls.prediction_mode = true ∧
                    iface.well_ecl.productionControls.resv_rate
                      < prodResvCurrentRate iface ws) ∨
                 (¬iface.well_ecl.productionControls.prediction_mode = true ∧
                    prodResvTargetRate iface < prodResvCurrentRate iface ws)))
            · have eh6 : prodViolated iface ws ProducerCMode.RESV = true := decide_eq_true h6
              rw [if_pos h6, List.find?_cons_of_pos _ eh6]
              rfl
            · have eh6 : ¬(prodViolated iface ws ProducerCMode.RESV = true) := fun hh => h6 (of_decide_eq_true hh)
              rw [if_neg h6, List.find?_cons_of_neg _ eh6]
              by_cases h7 : (iface.well_ecl.productionControls.hasControl .THP = true ∧
                  ws.currentProductionControl.getD iface.index_of_well .GRUP ≠ .THP ∧
                  iface.thpConstraint > ws.thp.getD iface.index_of_well 0)
              · have eh7 : prodViolated iface ws ProducerCMode.THP = true := decide_eq_true h7
                rw [if_pos h7, List.find?_cons_of_pos _ eh7]
                rfl
              · have eh7 : ¬(prodViolated iface ws ProducerCMode.THP = true) := fun hh => h7 (of_decide_eq_true hh)
                rw [if_neg h7, List.find?_cons_of_neg _ eh7]
                rfl

/-- Claim C6: checkIndividualConstraints evaluates the configured controls
in the fixed priority order, skipping the currently active control, and
returns true with the first violated control's write — so exactly one
control fires per call and it is the highest-priority violated one. -/
theorem c6_fixed_priority_order (iface : WellInterface) (ws : WellState) :
    (iface.well_ecl.isInjector = true → iface.well_ecl.isProducer = false →
      checkIndividualConstraints iface ws
        = (match injPriorityOrder.find? (injViolated iface ws) with
           | some m => (true, injWrite iface ws m)
           | none => (false, ws))) ∧
    (iface.well_ecl.isInjector = false → iface.well_ecl.isProducer = true →
      checkIndividualConstraints iface ws
        = (match prodPriorityOrder.find? (prodViolated iface ws) with
           | some m => (true, prodWrite iface ws m)
           | none => (false, ws))) := by
  constructor
  · intro hI hP
    unfold checkIndividualConstraints
    rw [if_pos hI, if_neg (by simp [hP]), injectorFired_eq_find]
    cases injPriorityOrder.find? (injViolated iface ws) with
    | some m => simp
    | none => simp
  · intro hI hP
    unfold checkIndividualConstraints
    rw [if_neg (by simp [hI]), if_pos hP, producerFired_eq_find]
    cases prodPriorityOrder.find? (prodViolated iface ws) with
    | some m => simp
    | none => simp

/-- Claim C6 witness: an injector with both the BHP and the RATE limits
violated fires BHP, the highest-priority control. -/
theorem c6_fixed_priority_order_witness :
    injViolated iface6 ws6 .BHP = true ∧
    injViolated iface6 ws6 .RATE = true ∧
    checkIndividualConstraints iface6 ws6 = (true, ws6.setInjControl 0 .BHP) := by
  refine ⟨by with_unfolding_all rfl, by with_unfolding_all rfl, ?_⟩
  have h := (c6_fixed_priority_order iface6 ws6).1 rfl rfl
  rw [h]
  with_unfolding_all rfl

end Claims

end Opm
